import Mathlib

/-! # Attribute-view values: the rollup calculator of `kernel/av/value.go`

A shallow embedding of `ValueRollup.RenderContents` together with the parts of the Go runtime and
standard library it calls (`int` arithmetic, `float64` arithmetic, `strconv.Itoa`,
`strconv.ParseFloat`, `strconv.FormatFloat`), followed by the properties of the calculator.

Conventions of the embedding.

* A Go `string` is a Lean `String`; string equality is the same on both sides for UTF-8 text.
* A Go `[]string` is a `List String`; a nil slice and an empty slice are both `[]` (the source only
  takes `len` and ranges over the slice).
* A `for _, v := range xs` loop is a `List.foldl` over `xs` whose accumulator holds the variables
  the loop body assigns.
* A Go `int` is an `Int`; the one product the source forms is reduced to 64 bits with `wrapInt64`.
  Counters are bounded by the length of the slice they count in, so increments are not reduced.
* A run-time panic is the `Except.error` result.
* A Go `float64` is the type `Float64` below, IEEE 754 binary64 with round-to-nearest-even.
* The library sort `sort.Float64s` is not stable, so the source does not fix the order it leaves
  `0` and `-0` in. It is an input of the calculator, of which the properties assume the contract
  `sort.Sorts` only: the result is the input rearranged in increasing order, NaN first.
-/

deriving instance DecidableEq for Except

namespace av

/-! ## Go `int` -/

/-- Run-time panics the calculator can raise. -/
inductive Panic where
  | integerDivideByZero
  | nilPointerDereference
  deriving DecidableEq

/-- Reduction of an integer to the two's-complement range of a 64-bit Go `int`. -/
def wrapInt64 (x : Int) : Int := (x + 2 ^ 63) % 2 ^ 64 - 2 ^ 63

/-- Go `a * b` on `int`. -/
def mulInt (a b : Int) : Int := wrapInt64 (a * b)

/-- Go `a / b` on `int`: truncated division, panicking on a zero divisor. -/
def divInt (a b : Int) : Except Panic Int :=
  if b = 0 then .error .integerDivideByZero else .ok (wrapInt64 (Int.tdiv a b))

/-! ## Go `float64` -/

/-- IEEE 754 binary64. A finite value is a sign and a magnitude, the magnitude counted in units of
2^-1074 (the spacing of the subnormals): every finite binary64 is such a multiple, with at most 53
significant bits and below 2^2098 units. -/
inductive Float64 where
  | nan : Float64
  | inf (neg : Bool) : Float64
  | fin (neg : Bool) (k : Nat) : Float64
  deriving DecidableEq

namespace Float64

/-- Number of binary digits of `n`, by halving (`fuel` bounds the number of halvings). -/
def bitLenAux : Nat → Nat → Nat → Nat
  | 0, _, acc => acc
  | fuel + 1, n, acc => if n = 0 then acc else bitLenAux fuel (n / 2) (acc + 1)

/-- Number of binary digits of `n` (0 for 0). -/
def bitLen (n : Nat) : Nat := bitLenAux n n 0

/-- The binary64 nearest to the rational `n / d` units of 2^-1074, ties to the even significand;
a magnitude that rounds to 2^1024 or more becomes an infinity. -/
def roundUnits (neg : Bool) (n d : Nat) : Float64 :=
  let shift := bitLen (n / d) - 53
  let D := d * 2 ^ shift
  let q := n / D
  let r := n % D
  let q1 := if D < 2 * r ∨ (2 * r = D ∧ q % 2 = 1) then q + 1 else q
  let k := q1 * 2 ^ shift
  if 2 ^ 2098 ≤ k then .inf neg else .fin neg k

/-- Positive zero, the zero value of a Go `float64` and the literal `0.0`. -/
def zero : Float64 := .fin false 0

/-- Go conversion `float64(n)` of an `int`. -/
def ofInt (n : Int) : Float64 := roundUnits (decide (n < 0)) (n.natAbs * 2 ^ 1074) 1

/-- Go `math.IsNaN`. -/
def isNaN : Float64 → Bool
  | .nan => true
  | _ => false

/-- Go unary `-x` on float64. -/
def neg : Float64 → Float64
  | .nan => .nan
  | .inf s => .inf (!s)
  | .fin s k => .fin (!s) k

/-- Position on the extended real line, in units of 2^-1074; read only for values other than NaN.
Both zeros sit at 0. -/
def key : Float64 → Int
  | .nan => 0
  | .inf s => if s then -(2 ^ 2100) else 2 ^ 2100
  | .fin s k => if s then -(k : Int) else (k : Int)

/-- Go `x < y` on float64: false when either side is NaN. -/
def lt (x y : Float64) : Bool := !x.isNaN && !y.isNaN && decide (x.key < y.key)

/-- Go `x > y` on float64. -/
def gt (x y : Float64) : Bool := lt y x

/-- Go `x + y` on float64. -/
def add : Float64 → Float64 → Float64
  | .nan, _ => .nan
  | _, .nan => .nan
  | .inf s, .inf t => if s = t then .inf s else .nan
  | .inf s, .fin _ _ => .inf s
  | .fin _ _, .inf t => .inf t
  | .fin s a, .fin t b =>
    if b = 0 then (if a = 0 then .fin (s && t) 0 else .fin s a)
    else if a = 0 then .fin t b
    else if s = t then roundUnits s (a + b) 1
    else if a = b then .fin false 0
    else if b < a then roundUnits s (a - b) 1
    else roundUnits t (b - a) 1

/-- Go `x - y` on float64. -/
def sub (x y : Float64) : Float64 := add x (neg y)

/-- Go `x / y` on float64. -/
def div : Float64 → Float64 → Float64
  | .nan, _ => .nan
  | _, .nan => .nan
  | .inf _, .inf _ => .nan
  | .inf s, .fin t _ => .inf (xor s t)
  | .fin s _, .inf t => .fin (xor s t) 0
  | .fin s a, .fin t b =>
    if b = 0 then (if a = 0 then .nan else .inf (xor s t))
    else roundUnits (xor s t) (a * 2 ^ 1074) b

/-- Drop the trailing decimal zeros of `D`, raising the exponent `p` of `D * 10^p` (`fuel` bounds
the number of zeros dropped; `D` itself is always enough). -/
def trimZeros : Nat → Nat → Int → Nat × Int
  | 0, D, p => (D, p)
  | fuel + 1, D, p => if D ≠ 0 ∧ D % 10 = 0 then trimZeros fuel (D / 10) (p + 1) else (D, p)

/-- Shortest decimal `D * 10^p` that reads back as the value `X / 2^1076`, given the rounding
interval from `L / 2^1076` to `U / 2^1076` of that value (`incl`: the end points belong to it).
One digit position per step, from `10^p` downwards: the truncation `lo` of the value and its
successor `hi` are tried, and when both lie in the interval the nearer one wins, ties to the even
digit. At `p = -1076` the truncation is the value itself, which ends the search at the latest;
`fuel` counts the positions still to try, the exact expansion standing for none left. -/
def shortestLoop : Nat → Nat → Nat → Nat → Bool → Int → Nat × Int
  | 0, X, _, _, _, _ => (X * 10 ^ 1076 / 2 ^ 1076, -1076)
  | fuel + 1, X, L, U, incl, p =>
    let num := if p < 0 then 10 ^ (-p).toNat else 1
    let den := 2 ^ 1076 * (if 0 ≤ p then 10 ^ p.toNat else 1)
    let lo := X * num / den
    let hi := lo + 1
    let okdown := decide (L * num < lo * den) || (incl && decide (L * num = lo * den))
    let okup := decide (hi * den < U * num) || (incl && decide (hi * den = U * num))
    let r := X * num - lo * den
    if okdown && okup then
      (if den < 2 * r ∨ (2 * r = den ∧ lo % 2 = 1) then (hi, p) else (lo, p))
    else if okdown then (lo, p)
    else if okup then (hi, p)
    else shortestLoop fuel X L U incl (p - 1)

/-- Shortest digits of the finite magnitude `k` (units of 2^-1074): the digit string and the
position of the decimal point counted from its start. The rounding interval reaches half-way to
the neighbouring binary64 values, the lower neighbour being twice as close at a power of two. The
search starts at a position `p0` above the leading digit (10^p0 exceeds the value, 30103/100000
being just above the decimal logarithm of 2) and may take every position down to -1076. -/
def shortest (k : Nat) : List Char × Int :=
  if k = 0 then ([], 0) else
  let s := bitLen k - 53
  let m := k / 2 ^ s
  let X := 4 * k
  let U := 4 * k + 2 * 2 ^ s
  let L := if m = 2 ^ 52 ∧ 0 < s then 4 * k - 2 ^ s else 4 * k - 2 * 2 ^ s
  let p0 : Int := Int.fdiv (((bitLen k : Int) - 1074) * 30103) 100000 + 2
  let (D, p) := shortestLoop (p0 + 1077).toNat X L U (m % 2 = 0) p0
  let (D, p) := trimZeros D D p
  let ds := Nat.toDigits 10 D
  (ds, (ds.length : Int) + p)

end Float64

namespace math

/-- Go `math.MaxFloat64`, the largest finite binary64: (2^53 - 1) * 2^971. -/
def MaxFloat64 : Float64 := .fin false ((2 ^ 53 - 1) * 2 ^ 2045)

end math

/-! ## Package `strconv` -/

namespace strconv

open Float64

/-- Go `strconv.Itoa`: the decimal rendering of an `int`. -/
def Itoa (i : Int) : String :=
  if i < 0 then "-" ++ Nat.repr i.natAbs else Nat.repr i.toNat

/-- Digits `d` with the decimal point at `dp`, laid out as `%f` with `prec` decimals. -/
def fmtF (neg : Bool) (d : List Char) (dp : Int) (prec : Nat) : String :=
  let sign := if neg then ['-'] else []
  let m := min d.length dp.toNat
  let intPart := if 0 < dp then d.take m ++ List.replicate (dp.toNat - m) '0' else ['0']
  let frac := if 0 < prec then
      '.' :: (List.range prec).map (fun i =>
        let j : Int := dp + i
        if 0 ≤ j ∧ j < d.length then d.getD j.toNat '0' else '0')
    else []
  String.mk (sign ++ intPart ++ frac)

/-- Go `strconv.FormatFloat(f, 'f', -1, 64)`, the only way the source calls it: the fewest
digits that read back as `f`, without exponent. -/
def FormatFloat : Float64 → String
  | .nan => "NaN"
  | .inf s => if s then "-Inf" else "+Inf"
  | .fin s k =>
    let (ds, dp) := shortest k
    fmtF s ds dp ((ds.length : Int) - dp).toNat

/-- Error kinds of `strconv.NumError`. -/
inductive NumError where
  | ErrSyntax
  | ErrRange
  deriving DecidableEq

/-- Go `lower`: `c | ('x' - 'X')`. -/
def lower (c : Nat) : Nat := c ||| 0x20

/-- Length of the common initial part of `s` and the lower-case text `pfx`, ignoring the case of
ASCII letters of `s`. -/
def commonPrefixLenIgnoreCase : List Nat → List Nat → Nat
  | c :: s, p :: pfx =>
    let c1 := if 65 ≤ c ∧ c ≤ 90 then c + 32 else c
    if c1 ≠ p then 0 else 1 + commonPrefixLenIgnoreCase s pfx
  | _, _ => 0

/-- The text "infinity". -/
def infinityText : List Nat := [105, 110, 102, 105, 110, 105, 116, 121]

/-- The text "nan". -/
def nanText : List Nat := [110, 97, 110]

/-- The `case 'i', 'I'` arm of `special`, entered directly or by fallthrough after a sign. -/
def specialInf (sign : Bool) (nsign : Nat) (s : List Nat) : Float64 × Nat × Bool :=
  let n := commonPrefixLenIgnoreCase s infinityText
  let n := if 3 < n ∧ n < 8 then 3 else n
  if n = 3 ∨ n = 8 then (.inf sign, nsign + n, true) else (zero, 0, false)

/-- Go `strconv.special`: recognises "inf", "infinity" (optionally signed) and "nan" at the start
of `s`; returns the value, the number of characters read and whether one was found. -/
def special (s : List Nat) : Float64 × Nat × Bool :=
  match s with
  | [] => (zero, 0, false)
  | c :: rest =>
    if c = 43 ∨ c = 45 then specialInf (c = 45) 1 rest
    else if c = 105 ∨ c = 73 then specialInf false 0 s
    else if c = 110 ∨ c = 78 then
      (if commonPrefixLenIgnoreCase s nanText = 3 then (.nan, 3, true) else (zero, 0, false))
    else (zero, 0, false)

/-- The loop of `underscoreOK`; `saw` is the last character class seen. -/
def underscoreOKLoop (hex : Bool) : List Nat → Nat → Bool
  | [], saw => saw ≠ 95
  | c :: t, saw =>
    if (48 ≤ c ∧ c ≤ 57) ∨ (hex = true ∧ 97 ≤ lower c ∧ lower c ≤ 102) then
      underscoreOKLoop hex t 48
    else if c = 95 then (if saw ≠ 48 then false else underscoreOKLoop hex t 95)
    else if saw = 95 then false
    else underscoreOKLoop hex t 33

/-- Go `strconv.underscoreOK`: underscores only between digits or after a base marker. -/
def underscoreOK (s : List Nat) : Bool :=
  let s := match s with
    | c :: t => if c = 45 ∨ c = 43 then t else s
    | [] => s
  match s with
  | a :: b :: t =>
    if a = 48 ∧ (lower b = 98 ∨ lower b = 111 ∨ lower b = 120) then
      underscoreOKLoop (lower b = 120) t 48
    else underscoreOKLoop false s 94
  | _ => underscoreOKLoop false s 94

/-- Variables of the digit loop of `readFloat`. -/
structure digitScan where
  mantissa : Nat
  nd : Int
  dp : Int
  sawdot : Bool
  sawdigits : Bool
  underscores : Bool

/-- The digit loop of `readFloat`. All digits are accumulated: Go keeps the first 19 with a
truncation flag for its fast paths and reads the whole text again on the slow path, the value
returned being the correctly rounded one either way. -/
def scanDigits (base : Nat) : List Nat → digitScan → digitScan × List Nat
  | [], st => (st, [])
  | c :: cs, st =>
    if c = 95 then scanDigits base cs { st with underscores := true }
    else if c = 46 then
      (if st.sawdot then (st, c :: cs)
       else scanDigits base cs { st with sawdot := true, dp := st.nd })
    else if 48 ≤ c ∧ c ≤ 57 then
      (if c = 48 ∧ st.nd = 0 then
         scanDigits base cs { st with sawdigits := true, dp := st.dp - 1 }
       else scanDigits base cs
         { st with sawdigits := true, nd := st.nd + 1, mantissa := st.mantissa * base + (c - 48) })
    else if base = 16 ∧ 97 ≤ lower c ∧ lower c ≤ 102 then
      scanDigits base cs
        { st with sawdigits := true, nd := st.nd + 1,
                  mantissa := st.mantissa * 16 + (lower c - 97 + 10) }
    else (st, c :: cs)

/-- The exponent loop of `readFloat`: digits and underscores, the value no longer growing once it
has reached 10000. -/
def scanExp : List Nat → Int → Bool → Int × Bool × List Nat
  | [], e, u => (e, u, [])
  | c :: cs, e, u =>
    if c = 95 then scanExp cs e true
    else if 48 ≤ c ∧ c ≤ 57 then scanExp cs (if e < 10000 then e * 10 + (c - 48 : Nat) else e) u
    else (e, u, c :: cs)

/-- What `readFloat` returns on success: the value is `mantissa * 10^exp`, or
`mantissa * 2^exp` for hexadecimal text; `i` characters were read. -/
structure floatText where
  mantissa : Nat
  exp : Int
  neg : Bool
  hex : Bool
  i : Nat

/-- Go `strconv.readFloat`; `none` is its `ok = false` result. -/
def readFloat (s : List Nat) : Option floatText :=
  match s with
  | [] => none
  | c0 :: _ =>
    let neg : Bool := c0 = 45
    let i0 := if c0 = 43 ∨ c0 = 45 then 1 else 0
    let hex : Bool := match s.drop i0 with
      | a :: b :: _ :: _ => a = 48 ∧ lower b = 120
      | _ => false
    let base := if hex then 16 else 10
    let expChar := if hex then 112 else 101
    let i1 := if hex then i0 + 2 else i0
    let (st, rest) := scanDigits base (s.drop i1) ⟨0, 0, 0, false, false, false⟩
    if !st.sawdigits then none else
    let dp := if st.sawdot then st.dp else st.nd
    let dp := if hex then dp * 4 else dp
    let ndMant := if hex then st.nd * 4 else st.nd
    let finish (dp : Int) (underscores : Bool) (rest : List Nat) : Option floatText :=
      let i := s.length - rest.length
      if underscores && !underscoreOK (s.take i) then none
      else some ⟨st.mantissa, if st.mantissa ≠ 0 then dp - ndMant else 0, neg, hex, i⟩
    match rest with
    | c :: rest1 =>
      if lower c = expChar then
        match rest1 with
        | [] => none
        | d :: rest2 =>
          let esign : Int := if d = 45 then -1 else 1
          let rest3 := if d = 43 ∨ d = 45 then rest2 else rest1
          match rest3 with
          | [] => none
          | e0 :: _ =>
            if e0 < 48 ∨ 57 < e0 then none else
            let (e, u, rest4) := scanExp rest3 0 st.underscores
            finish (dp + e * esign) u rest4
      else if hex then none
      else finish dp st.underscores rest
    | [] => if hex then none else finish dp st.underscores rest

/-- The value read by `readFloat`, correctly rounded to binary64. -/
def toFloat64 (t : floatText) : Float64 :=
  if t.hex then
    (if 0 ≤ t.exp + 1074 then roundUnits t.neg (t.mantissa * 2 ^ (t.exp + 1074).toNat) 1
     else roundUnits t.neg t.mantissa (2 ^ (-(t.exp + 1074)).toNat))
  else
    (if 0 ≤ t.exp then roundUnits t.neg (t.mantissa * 10 ^ t.exp.toNat * 2 ^ 1074) 1
     else roundUnits t.neg (t.mantissa * 2 ^ 1074) (10 ^ (-t.exp).toNat))

/-- Go `strconv.ParseFloat(s, 64)`: the value and the error (`none` is `nil`). Text that is not a
number gives `(0, ErrSyntax)`; a number beyond the binary64 range gives the infinity of its sign
and `ErrRange`. Characters are compared by code, those outside ASCII matching no test. -/
def ParseFloat (str : String) : Float64 × Option NumError :=
  let s := str.toList.map Char.toNat
  match special s with
  | (val, n, true) => if n ≠ s.length then (zero, some .ErrSyntax) else (val, none)
  | (_, _, false) =>
    match readFloat s with
    | none => (zero, some .ErrSyntax)
    | some t =>
      if t.i ≠ s.length then (zero, some .ErrSyntax) else
      match toFloat64 t with
      | .inf sg => (.inf sg, some .ErrRange)
      | f => (f, none)

end strconv

/-! ## Package `sort` -/

namespace sort

/-- Go `Float64Slice.Less`: `x < y`, with NaN before every other value. -/
def Less (x y : Float64) : Bool := x.lt y || (x.isNaN && !y.isNaN)

/-- The contract of Go `sort.Float64s`: the slice after the call is a rearrangement of the slice
before it, in increasing order by `Less` (no element is `Less` than one before it). The library
sort is not stable and its algorithm differs between Go releases, so the order in which it leaves
elements that are not `Less` than one another (`0` and `-0`) is not fixed by the source.
`RenderContents` therefore takes the library function as its input `Float64s`, and the properties
of the Median operator assume this contract of it and nothing else. -/
def Sorts (Float64s : List Float64 → List Float64) : Prop :=
  ∀ xs, (Float64s xs).Perm xs ∧ (Float64s xs).Pairwise (fun a b => Less b a = false)

/-- One pass of insertion sort: `x` goes in front of the first element it is `Less` than. -/
def insertSorted (x : Float64) : List Float64 → List Float64
  | [] => [x]
  | y :: ys => if Less x y then x :: y :: ys else y :: insertSorted x ys

/-- Insertion sort by `Less`: one function that meets the contract `Sorts`. It stands for the
library sort where a concrete sort function is needed, and it gives the result of every function
that meets the contract on a list whose sorted order is unique. -/
def insertionSort (xs : List Float64) : List Float64 :=
  xs.foldl (fun acc x => insertSorted x acc) []

end sort

/-! ## The rollup calculator -/

/-- Modelled from the spec: the type `CalcOperator` and its constants are declared outside
`value.go`; these are the constants the switch of `RenderContents` names, which are the operators
of the specification's table. -/
inductive CalcOperator where
  | CalcOperatorNone
  | CalcOperatorCountAll
  | CalcOperatorCountValues
  | CalcOperatorCountUniqueValues
  | CalcOperatorCountEmpty
  | CalcOperatorCountNotEmpty
  | CalcOperatorPercentEmpty
  | CalcOperatorPercentNotEmpty
  | CalcOperatorSum
  | CalcOperatorAverage
  | CalcOperatorMedian
  | CalcOperatorMin
  | CalcOperatorMax
  | CalcOperatorRange
  | CalcOperatorChecked
  | CalcOperatorUnchecked
  | CalcOperatorPercentChecked
  | CalcOperatorPercentUnchecked
  deriving DecidableEq

/-- Modelled from the spec: the struct `RollupCalc` is declared outside `value.go`;
`RenderContents` reads its field `Operator` only. -/
structure RollupCalc where
  Operator : CalcOperator
  deriving DecidableEq

/-- Go `type ValueRollup struct { Contents []string }`. -/
structure ValueRollup where
  Contents : List String
  deriving DecidableEq

open CalcOperator in
/-- Go `func (r *ValueRollup) RenderContents(calc *RollupCalc)`: the payload after the call, or
the panic raised. The parameter `rollupCalc` is the source's `calc`, `none` being the nil pointer.
The parameter `Float64s` is the library function `sort.Float64s` the Median branch calls (see
`sort.Sorts`); no other branch uses it. -/
def ValueRollup.RenderContents (Float64s : List Float64 → List Float64) (r : ValueRollup)
    (rollupCalc : Option RollupCalc) : Except Panic ValueRollup :=
  match rollupCalc with
  | none => .ok r
  | some c =>
    match c.Operator with
    | CalcOperatorNone => .ok r
    | CalcOperatorCountAll => .ok ⟨[strconv.Itoa r.Contents.length]⟩
    | CalcOperatorCountValues => .ok ⟨[strconv.Itoa r.Contents.length]⟩
    | CalcOperatorCountUniqueValues =>
      let st := r.Contents.foldl
        (fun (st : Int × (String → Bool)) v =>
          if !st.2 v then (st.1 + 1, fun k => if k = v then true else st.2 k) else st)
        (0, fun _ => false)
      .ok ⟨[strconv.Itoa st.1]⟩
    | CalcOperatorCountEmpty =>
      let countEmpty := r.Contents.foldl (fun (n : Int) v => if "" = v then n + 1 else n) 0
      .ok ⟨[strconv.Itoa countEmpty]⟩
    | CalcOperatorCountNotEmpty =>
      let countNonEmpty := r.Contents.foldl (fun (n : Int) v => if "" ≠ v then n + 1 else n) 0
      .ok ⟨[strconv.Itoa countNonEmpty]⟩
    | CalcOperatorPercentEmpty =>
      let countEmpty := r.Contents.foldl (fun (n : Int) v => if "" = v then n + 1 else n) 0
      (divInt (mulInt countEmpty 100) r.Contents.length).map
        fun q => ⟨[strconv.Itoa q ++ "%"]⟩
    | CalcOperatorPercentNotEmpty =>
      let countNonEmpty := r.Contents.foldl (fun (n : Int) v => if "" ≠ v then n + 1 else n) 0
      (divInt (mulInt countNonEmpty 100) r.Contents.length).map
        fun q => ⟨[strconv.Itoa q ++ "%"]⟩
    | CalcOperatorSum =>
      let sum := r.Contents.foldl
        (fun (sum : Float64) v =>
          if "" ≠ v then sum.add (strconv.ParseFloat v).1 else sum)
        Float64.zero
      .ok ⟨[strconv.FormatFloat sum]⟩
    | CalcOperatorAverage =>
      let st := r.Contents.foldl
        (fun (st : Float64 × Int) v =>
          if "" ≠ v then (st.1.add (strconv.ParseFloat v).1, st.2 + 1) else st)
        (Float64.zero, 0)
      .ok ⟨[strconv.FormatFloat (st.1.div (Float64.ofInt st.2))]⟩
    | CalcOperatorMedian =>
      let numbers := r.Contents.foldl
        (fun (numbers : List Float64) v =>
          if "" ≠ v then numbers ++ [(strconv.ParseFloat v).1] else numbers)
        []
      let numbers := Float64s numbers
      if 0 < numbers.length then
        if 0 = numbers.length % 2 then
          .ok ⟨[strconv.FormatFloat
            (((numbers.getD (numbers.length / 2 - 1) Float64.zero).add
              (numbers.getD (numbers.length / 2) Float64.zero)).div (Float64.ofInt 2))]⟩
        else
          .ok ⟨[strconv.FormatFloat (numbers.getD (numbers.length / 2) Float64.zero)]⟩
      else .ok r
    | CalcOperatorMin =>
      let min := r.Contents.foldl
        (fun (min : Float64) v =>
          if "" ≠ v then
            let n := (strconv.ParseFloat v).1
            if n.lt min then n else min
          else min)
        math.MaxFloat64
      .ok ⟨[strconv.FormatFloat min]⟩
    | CalcOperatorMax =>
      let max := r.Contents.foldl
        (fun (max : Float64) v =>
          if "" ≠ v then
            let n := (strconv.ParseFloat v).1
            if n.gt max then n else max
          else max)
        math.MaxFloat64.neg
      .ok ⟨[strconv.FormatFloat max]⟩
    | CalcOperatorRange =>
      let st := r.Contents.foldl
        (fun (st : Float64 × Float64) v =>
          if "" ≠ v then
            let n := (strconv.ParseFloat v).1
            (if n.lt st.1 then n else st.1, if n.gt st.2 then n else st.2)
          else st)
        (math.MaxFloat64, math.MaxFloat64.neg)
      .ok ⟨[strconv.FormatFloat (st.2.sub st.1)]⟩
    | CalcOperatorChecked =>
      let countChecked := r.Contents.foldl (fun (n : Int) v => if "√" = v then n + 1 else n) 0
      .ok ⟨[strconv.Itoa countChecked]⟩
    | CalcOperatorUnchecked =>
      let countUnchecked := r.Contents.foldl (fun (n : Int) v => if "√" ≠ v then n + 1 else n) 0
      .ok ⟨[strconv.Itoa countUnchecked]⟩
    | CalcOperatorPercentChecked =>
      let countChecked := r.Contents.foldl (fun (n : Int) v => if "√" = v then n + 1 else n) 0
      (divInt (mulInt countChecked 100) r.Contents.length).map
        fun q => ⟨[strconv.Itoa q ++ "%"]⟩
    | CalcOperatorPercentUnchecked =>
      let countUnchecked := r.Contents.foldl (fun (n : Int) v => if "√" ≠ v then n + 1 else n) 0
      (divInt (mulInt countUnchecked 100) r.Contents.length).map
        fun q => ⟨[strconv.Itoa q ++ "%"]⟩

/-- The call `r.RenderContents(&RollupCalc{Operator: op})` on a payload holding `contents`, with
`Float64s` for the library sort. -/
def render (Float64s : List Float64 → List Float64) (op : CalcOperator) (contents : List String) :
    Except Panic ValueRollup :=
  ValueRollup.RenderContents Float64s ⟨contents⟩ (some ⟨op⟩)

/-- The values the numeric operators work on: the non-empty elements of the contents, each read by
`strconv.ParseFloat` with the error discarded, in their order. -/
def parsedNonEmpty (contents : List String) : List Float64 :=
  (contents.filter (fun v => v ≠ "")).map (fun v => (strconv.ParseFloat v).1)

/-! ## Go `float64`, continued: product and rounding to whole numbers -/

namespace Float64

/-- Go `x * y` on float64. -/
def mul : Float64 → Float64 → Float64
  | .nan, _ => .nan
  | _, .nan => .nan
  | .inf s, .inf t => .inf (xor s t)
  | .inf s, .fin t b => if b = 0 then .nan else .inf (xor s t)
  | .fin s a, .inf t => if a = 0 then .nan else .inf (xor s t)
  | .fin s a, .fin t b => roundUnits (xor s t) (a * b) (2 ^ 1074)

/-- The binary64 nearest to `m * 10^e`, the value of a Go floating-point constant. -/
def ofDecimal (m : Nat) (e : Int) : Float64 :=
  if 0 ≤ e then roundUnits false (m * 10 ^ e.toNat * 2 ^ 1074) 1
  else roundUnits false (m * 2 ^ 1074) (10 ^ (-e).toNat)

end Float64

namespace math

/-- Go `math.Floor`: the greatest whole number not above `x`; NaN, the infinities and the zeros
are returned as they are. -/
def Floor : Float64 → Float64
  | .nan => .nan
  | .inf s => .inf s
  | .fin false k => .fin false (k / 2 ^ 1074 * 2 ^ 1074)
  | .fin true k => .fin true ((k + 2 ^ 1074 - 1) / 2 ^ 1074 * 2 ^ 1074)

/-- Go `math.Ceil`, which is `-Floor(-x)`. -/
def Ceil (x : Float64) : Float64 := (Floor x.neg).neg

/-- Go `math.Round`: the nearest whole number, halves away from zero, the sign kept. -/
def Round : Float64 → Float64
  | .nan => .nan
  | .inf s => .inf s
  | .fin s k => .fin s ((2 * k + 2 ^ 1074) / (2 * 2 ^ 1074) * 2 ^ 1074)

/-- Go `math.pow10tab`: the constants 1e0 to 1e31. -/
def pow10tab (i : Nat) : Float64 := Float64.ofDecimal 1 i

/-- Go `math.pow10postab32`: the constants 1e0, 1e32, up to 1e288. -/
def pow10postab32 (i : Nat) : Float64 := Float64.ofDecimal 1 (32 * i)

/-- Go `math.pow10negtab32`: the constants 1e-0, 1e-32, down to 1e-320. -/
def pow10negtab32 (i : Nat) : Float64 := Float64.ofDecimal 1 (-(32 * i : Int))

/-- Go `math.Pow10`. -/
def Pow10 (n : Int) : Float64 :=
  if 0 ≤ n ∧ n ≤ 308 then (pow10postab32 (n.toNat / 32)).mul (pow10tab (n.toNat % 32))
  else if -323 ≤ n ∧ n ≤ 0 then
    (pow10negtab32 ((-n).toNat / 32)).div (pow10tab ((-n).toNat % 32))
  else if 0 < n then .inf false
  else Float64.zero

end math

/-! ## Packages `strings`, `strconv` (fixed precision) and `fmt` -/

namespace strings

/-- Go `strings.TrimRight`: `s` without its trailing characters that occur in `cutset`. -/
def TrimRight (s cutset : String) : String :=
  String.mk (s.toList.reverse.dropWhile (fun c => decide (c ∈ cutset.toList))).reverse

/-- Go `unicode.IsSpace`: the characters with the Unicode White_Space property. -/
def isSpace (c : Char) : Bool :=
  let n := c.toNat
  (9 ≤ n && n ≤ 13) || n = 32 || n = 0x85 || n = 0xA0 || n = 0x1680 ||
  (0x2000 ≤ n && n ≤ 0x200A) || n = 0x2028 || n = 0x2029 || n = 0x202F || n = 0x205F ||
  n = 0x3000

/-- Go `strings.TrimSpace`: `s` without its leading and trailing white space. -/
def TrimSpace (s : String) : String :=
  String.mk ((s.toList.dropWhile isSpace).reverse.dropWhile isSpace).reverse

/-- Go `strings.Join`. -/
def Join (elems : List String) (sep : String) : String := sep.intercalate elems

end strings

namespace strconv

/-- The whole number nearest to `k * 2^-1074 * 10^prec`, ties to the even one: the digits of the
value with `prec` decimals, the decimal point left out. -/
def fixedDigits (k prec : Nat) : Nat :=
  let q := k * 10 ^ prec / 2 ^ 1074
  let r := k * 10 ^ prec % 2 ^ 1074
  if 2 ^ 1074 < 2 * r ∨ (2 * r = 2 ^ 1074 ∧ q % 2 = 1) then q + 1 else q

/-- The integer digits of `fixedDigits`. -/
def fixedInt (k prec : Nat) : List Char := Nat.toDigits 10 (fixedDigits k prec / 10 ^ prec)

/-- The `prec` decimals of `fixedDigits`. -/
def fixedFrac (k prec : Nat) : List Char :=
  let ds := Nat.toDigits 10 (fixedDigits k prec % 10 ^ prec)
  List.replicate (prec - ds.length) '0' ++ ds

/-- Go `strconv.FormatFloat(f, 'f', prec, 64)` with `prec` at least 0: exactly `prec` decimals,
the value rounded to nearest, ties to even. -/
def FormatFloatFixed (f : Float64) (prec : Nat) : String :=
  match f with
  | .nan => "NaN"
  | .inf s => if s then "-Inf" else "+Inf"
  | .fin s k =>
    String.mk ((if s then ['-'] else []) ++ fixedInt k prec ++
      (if 0 < prec then '.' :: fixedFrac k prec else []))

end strconv

namespace fmt

/-- Go `fmt.Sprintf` for a format made of the literal text `pfx` and one float verb with
`prec` decimals: `"%f"` is `Sprintf "" 6`, `"%.5f"` is `Sprintf "" 5`. -/
def Sprintf (pfx : String) (prec : Nat) (x : Float64) : String :=
  pfx ++ strconv.FormatFloatFixed x prec

end fmt

/-! ## Packages `language` and `message` of `golang.org/x/text` -/

namespace language

/-- The language tags `formatNumber` makes printers for. -/
inductive Tag where
  | English
  | Chinese
  | German
  | Japanese
  | Russian
  | Hindi
  | Korean
  | French
  deriving DecidableEq

end language

/-- The Locale Formatter of the specification, for the languages other than English: the text
that the printer of a language gives for a literal prefix and an amount with the given number of
decimals. It is input to the model, which fixes none of these renderings. -/
abbrev LocaleFormatter := language.Tag → String → Nat → Float64 → String

namespace message

/-- Commas between groups of three digits, counted from the right; the digits come reversed. -/
def groupReversed : List Char → List Char
  | a :: b :: c :: rest => if rest = [] then [a, b, c] else a :: b :: c :: ',' :: groupReversed rest
  | l => l

/-- The English printer: the digits of the `fmt` rendering of the magnitude with `prec` decimals,
the integer part in groups of three separated by commas, the decimal point a full stop. The
printer takes the sign from the comparison `x < 0`, not from the sign bit: an amount below zero
has the minus sign even when its digits round to zero, and negative zero, which is not below zero,
is printed as zero. -/
def english (pfx : String) (prec : Nat) (x : Float64) : String :=
  match x with
  | .nan => pfx ++ "NaN"
  | .inf s => pfx ++ (if s then "-∞" else "∞")
  | .fin s k =>
    pfx ++ String.mk ((if (Float64.fin s k).lt Float64.zero then ['-'] else []) ++
      (groupReversed (strconv.fixedInt k prec).reverse).reverse ++
      (if 0 < prec then '.' :: strconv.fixedFrac k prec else []))

/-- Go `message.NewPrinter(tag).Sprintf` for a format made of the literal text `pfx` and one
float verb with `prec` decimals. -/
def Sprintf (lf : LocaleFormatter) (tag : language.Tag) (pfx : String) (prec : Nat)
    (x : Float64) : String :=
  match tag with
  | .English => english pfx prec x
  | t => lf t pfx prec x

end message

/-! ## Numbers -/

/-- Go `type NumberFormat string`. -/
abbrev NumberFormat := String

def NumberFormatNone : NumberFormat := ""
def NumberFormatCommas : NumberFormat := "commas"
def NumberFormatPercent : NumberFormat := "percent"
def NumberFormatUSDollar : NumberFormat := "usDollar"
def NumberFormatYuan : NumberFormat := "yuan"
def NumberFormatEuro : NumberFormat := "euro"
def NumberFormatPound : NumberFormat := "pound"
def NumberFormatYen : NumberFormat := "yen"
def NumberFormatRuble : NumberFormat := "ruble"
def NumberFormatRupee : NumberFormat := "rupee"
def NumberFormatWon : NumberFormat := "won"
def NumberFormatCanadianDollar : NumberFormat := "canadianDollar"
def NumberFormatFranc : NumberFormat := "franc"

/-- Go `type ValueNumber struct`. -/
structure ValueNumber where
  Content : Float64
  IsNotEmpty : Bool
  Format : NumberFormat
  FormattedContent : String
  deriving DecidableEq

/-- Go `func formatNumber(content float64, format NumberFormat) string`. -/
def formatNumber (lf : LocaleFormatter) (content : Float64) (format : NumberFormat) : String :=
  if format = NumberFormatNone then strconv.FormatFloat content
  else if format = NumberFormatCommas then
    let s := message.Sprintf lf .English "" 6 content
    strings.TrimRight (strings.TrimRight s "0") "."
  else if format = NumberFormatPercent then
    let s := fmt.Sprintf "" 2 (content.mul (Float64.ofInt 100))
    strings.TrimRight (strings.TrimRight s "0") "." ++ "%"
  else if format = NumberFormatUSDollar then message.Sprintf lf .English "$" 2 content
  else if format = NumberFormatYuan then message.Sprintf lf .Chinese "CN¥" 2 content
  else if format = NumberFormatEuro then message.Sprintf lf .German "€" 2 content
  else if format = NumberFormatPound then message.Sprintf lf .English "£" 2 content
  else if format = NumberFormatYen then message.Sprintf lf .Japanese "¥" 0 content
  else if format = NumberFormatRuble then message.Sprintf lf .Russian "₽" 2 content
  else if format = NumberFormatRupee then message.Sprintf lf .Hindi "₹" 2 content
  else if format = NumberFormatWon then message.Sprintf lf .Korean "₩" 0 content
  else if format = NumberFormatCanadianDollar then message.Sprintf lf .English "CA$" 2 content
  else if format = NumberFormatFranc then message.Sprintf lf .French "CHF" 2 content
  else strconv.FormatFloat content

/-- Go `func NewValueNumber(content float64) *ValueNumber`. -/
def NewValueNumber (content : Float64) : ValueNumber :=
  { Content := content, IsNotEmpty := true, Format := NumberFormatNone,
    FormattedContent := fmt.Sprintf "" 6 content }

/-- Go `func NewFormattedValueNumber(content float64, format NumberFormat) (ret *ValueNumber)`. -/
def NewFormattedValueNumber (lf : LocaleFormatter) (content : Float64) (format : NumberFormat) :
    ValueNumber :=
  let ret : ValueNumber :=
    { Content := content, IsNotEmpty := true, Format := format,
      FormattedContent := fmt.Sprintf "" 6 content }
  let ret := { ret with FormattedContent := formatNumber lf content format }
  if format = NumberFormatNone then
    let s := fmt.Sprintf "" 5 content
    { ret with FormattedContent := strings.TrimRight (strings.TrimRight s "0") "." }
  else ret

/-- Go `func (number *ValueNumber) FormatNumber()`: the payload after the call. -/
def ValueNumber.FormatNumber (lf : LocaleFormatter) (number : ValueNumber) : ValueNumber :=
  { number with FormattedContent := formatNumber lf number.Content number.Format }

/-- Go `func RoundUp(val float64, precision int) float64`. -/
def RoundUp (val : Float64) (precision : Int) : Float64 :=
  (math.Ceil (val.mul (math.Pow10 precision))).div (math.Pow10 precision)

/-- Go `func RoundDown(val float64, precision int) float64`. -/
def RoundDown (val : Float64) (precision : Int) : Float64 :=
  (math.Floor (val.mul (math.Pow10 precision))).div (math.Pow10 precision)

/-- Go `func Round(val float64, precision int) float64`. -/
def Round (val : Float64) (precision : Int) : Float64 :=
  (math.Round (val.mul (math.Pow10 precision))).div (math.Pow10 precision)

/-! ## Package `time` -/

namespace time

/-- Go `time.Time`, as far as the source reads it: an instant, in seconds and nanoseconds since
the Unix epoch. -/
structure Time where
  sec : Int
  nsec : Int
  deriving DecidableEq

/-- Go `time.Unix`: the nanoseconds are brought into the range from 0 to 999999999. -/
def Unix (sec nsec : Int) : Time :=
  if nsec < 0 ∨ 1000000000 ≤ nsec then
    let n := Int.tdiv nsec 1000000000
    let sec := sec + n
    let nsec := nsec - n * 1000000000
    if nsec < 0 then ⟨sec - 1, nsec + 1000000000⟩ else ⟨sec, nsec⟩
  else ⟨sec, nsec⟩

/-- Go `time.UnixMilli`. -/
def UnixMilli (msec : Int) : Time :=
  Unix (Int.tdiv msec 1000) (Int.tmod msec 1000 * 1000000)

/-- The time zone of the process, Go `time.Local`: the offset east of UTC, in seconds, in effect
at an instant given in Unix seconds. It is input to the model. -/
abbrev Location := Int → Int

/-- Year, month and day of the proleptic Gregorian calendar for a day counted from 1970-01-01. -/
def civil (days : Int) : Int × Int × Int :=
  let z := days + 719468
  let era := Int.fdiv z 146097
  let doe := z - era * 146097
  let yoe := Int.fdiv (doe - Int.fdiv doe 1460 + Int.fdiv doe 36524 - Int.fdiv doe 146096) 365
  let doy := doe - (365 * yoe + Int.fdiv yoe 4 - Int.fdiv yoe 100)
  let mp := Int.fdiv (5 * doy + 2) 153
  let d := doy - Int.fdiv (153 * mp + 2) 5 + 1
  let m := if mp < 10 then mp + 3 else mp - 9
  let y := yoe + era * 400 + (if m ≤ 2 then 1 else 0)
  (y, m, d)

/-- Go `time.appendInt`: the decimal digits of `x`, filled with zeros on the left up to `width`
digits, after a minus sign when `x` is negative. -/
def appendInt (x : Int) (width : Nat) : String :=
  let ds := Nat.toDigits 10 x.natAbs
  String.mk ((if x < 0 then ['-'] else []) ++ List.replicate (width - ds.length) '0' ++ ds)

/-- The layouts the source formats with. -/
inductive Layout where
  /-- The layout "2006-01-02". -/
  | date
  /-- The layout "2006-01-02 15:04". -/
  | dateMinute
  deriving DecidableEq

/-- Go `Time.Format` of an instant shown in the zone `loc`, for the two layouts of the source. -/
def Time.Format (loc : Location) (t : Time) (layout : Layout) : String :=
  let abs := t.sec + loc t.sec
  let ymd := civil (Int.fdiv abs 86400)
  let secs := Int.fmod abs 86400
  let day := appendInt ymd.1 4 ++ "-" ++ appendInt ymd.2.1 2 ++ "-" ++ appendInt ymd.2.2 2
  match layout with
  | .date => day
  | .dateMinute =>
    day ++ " " ++ appendInt (Int.fdiv secs 3600) 2 ++ ":" ++
      appendInt (Int.fdiv (Int.fmod secs 3600) 60) 2

end time

/-! ## Dates -/

/-- Go `type DateFormat string`. -/
abbrev DateFormat := String

def DateFormatNone : DateFormat := ""
def DateFormatDuration : DateFormat := "duration"

/-- Go `type ValueDate struct`. -/
structure ValueDate where
  Content : Int
  IsNotEmpty : Bool
  HasEndDate : Bool
  IsNotTime : Bool
  Content2 : Int
  IsNotEmpty2 : Bool
  FormattedContent : String
  deriving DecidableEq

/-- Go `func NewFormattedValueDate(content, content2 int64, format DateFormat, isNotTime bool)
(ret *ValueDate)`. The zone `Local` of the process and `util.HumanizeRelTime` (with the language
`util.Lang` it is called with), which is declared outside `value.go`, are input to the model. -/
def NewFormattedValueDate (Local : time.Location) (HumanizeRelTime : time.Time → time.Time → String)
    (content content2 : Int) (format : DateFormat) (isNotTime : Bool) : ValueDate :=
  let formatted :=
    if isNotTime then (time.UnixMilli content).Format Local .date
    else (time.UnixMilli content).Format Local .dateMinute
  let formatted :=
    if 0 < content2 then
      let formattedContent2 :=
        if isNotTime then (time.UnixMilli content2).Format Local .date
        else (time.UnixMilli content2).Format Local .dateMinute
      formatted ++ (" → " ++ formattedContent2)
    else formatted
  let formatted :=
    if format = DateFormatNone then formatted
    else if format = DateFormatDuration then
      HumanizeRelTime (time.UnixMilli content) (time.UnixMilli content2)
    else formatted
  { Content := content, Content2 := content2, HasEndDate := false, IsNotTime := true,
    FormattedContent := formatted, IsNotEmpty := false, IsNotEmpty2 := false }

/-! ## Values -/

/-- Modelled from the spec: the type `KeyType` and its constants are declared outside `value.go`;
these are the constants the switch of `String` names, the sixteen kinds of the specification, and
`unrecognised` stands for every other value of the type. -/
inductive KeyType where
  | KeyTypeBlock
  | KeyTypeText
  | KeyTypeNumber
  | KeyTypeDate
  | KeyTypeSelect
  | KeyTypeMSelect
  | KeyTypeURL
  | KeyTypeEmail
  | KeyTypePhone
  | KeyTypeMAsset
  | KeyTypeTemplate
  | KeyTypeCreated
  | KeyTypeUpdated
  | KeyTypeCheckbox
  | KeyTypeRelation
  | KeyTypeRollup
  | unrecognised
  deriving DecidableEq

structure ValueBlock where
  ID : String
  Content : String
  Created : Int
  Updated : Int
  deriving DecidableEq

structure ValueText where
  Content : String
  deriving DecidableEq

structure ValueSelect where
  Content : String
  Color : String
  deriving DecidableEq

structure ValueURL where
  Content : String
  deriving DecidableEq

structure ValueEmail where
  Content : String
  deriving DecidableEq

structure ValuePhone where
  Content : String
  deriving DecidableEq

/-- Go `type AssetType string`. -/
abbrev AssetType := String

/-- Go `type ValueAsset struct`; `Type_` is the field `Type`. -/
structure ValueAsset where
  Type_ : AssetType
  Name : String
  Content : String
  deriving DecidableEq

structure ValueTemplate where
  Content : String
  deriving DecidableEq

structure ValueCreated where
  Content : Int
  IsNotEmpty : Bool
  Content2 : Int
  IsNotEmpty2 : Bool
  FormattedContent : String
  deriving DecidableEq

structure ValueUpdated where
  Content : Int
  IsNotEmpty : Bool
  Content2 : Int
  IsNotEmpty2 : Bool
  FormattedContent : String
  deriving DecidableEq

structure ValueCheckbox where
  Checked : Bool
  deriving DecidableEq

structure ValueRelation where
  Contents : List String
  BlockIDs : List String
  deriving DecidableEq

/-- Go `type Value struct`. A pointer field is an `Option`, `none` being nil; `MSelect` and
`MAsset` are slices of pointers; `Type_` is the field `Type`. -/
structure Value where
  ID : String
  KeyID : String
  BlockID : String
  Type_ : KeyType
  IsDetached : Bool
  Block : Option ValueBlock
  Text : Option ValueText
  Number : Option ValueNumber
  Date : Option ValueDate
  MSelect : List (Option ValueSelect)
  URL : Option ValueURL
  Email : Option ValueEmail
  Phone : Option ValuePhone
  MAsset : List (Option ValueAsset)
  Template : Option ValueTemplate
  Created : Option ValueCreated
  Updated : Option ValueUpdated
  Checkbox : Option ValueCheckbox
  Relation : Option ValueRelation
  Rollup : Option ValueRollup

/-- The loop `for _, v := range xs { ret = append(ret, v.Content) }` over a slice of pointers:
the contents collected, or the panic of reading through a nil element. -/
def collectContents {α : Type} (content : α → String) :
    List (Option α) → Except Panic (List String)
  | [] => .ok []
  | none :: _ => .error .nilPointerDereference
  | some v :: rest => (collectContents content rest).map (fun ret => content v :: ret)

open KeyType in
/-- Go `func (value *Value) String() string`, on a receiver that is not nil: the string returned,
or the panic raised. -/
def Value.String (value : Value) : Except Panic String :=
  match value.Type_ with
  | KeyTypeBlock =>
    match value.Block with
    | none => .ok ""
    | some b => .ok b.Content
  | KeyTypeText =>
    match value.Text with
    | none => .ok ""
    | some t => .ok (strings.TrimSpace t.Content)
  | KeyTypeNumber =>
    match value.Number with
    | none => .ok ""
    | some n => .ok n.FormattedContent
  | KeyTypeDate =>
    match value.Date with
    | none => .ok ""
    | some d => .ok d.FormattedContent
  | KeyTypeSelect =>
    match value.MSelect with
    | [] => .ok ""
    | none :: _ => .error .nilPointerDereference
    | some s :: _ => .ok s.Content
  | KeyTypeMSelect =>
    if value.MSelect.length < 1 then .ok ""
    else (collectContents ValueSelect.Content value.MSelect).map (fun ret => strings.Join ret " ")
  | KeyTypeURL =>
    match value.URL with
    | none => .ok ""
    | some u => .ok u.Content
  | KeyTypeEmail =>
    match value.Email with
    | none => .ok ""
    | some e => .ok e.Content
  | KeyTypePhone =>
    match value.Phone with
    | none => .ok ""
    | some p => .ok p.Content
  | KeyTypeMAsset =>
    if value.MAsset.length < 1 then .ok ""
    else (collectContents ValueAsset.Content value.MAsset).map (fun ret => strings.Join ret " ")
  | KeyTypeTemplate =>
    match value.Template with
    | none => .ok ""
    | some t => .ok (strings.TrimSpace t.Content)
  | KeyTypeCreated =>
    match value.Created with
    | none => .ok ""
    | some c => .ok c.FormattedContent
  | KeyTypeUpdated =>
    match value.Updated with
    | none => .ok ""
    | some u => .ok u.FormattedContent
  | KeyTypeCheckbox =>
    match value.Checkbox with
    | none => .ok ""
    | some c => if c.Checked then .ok "√" else .ok ""
  | KeyTypeRelation =>
    match value.Relation with
    | none => .error .nilPointerDereference
    | some rel =>
      if rel.Contents.length < 1 then .ok ""
      else .ok (strings.Join (rel.Contents.foldl (fun ret v => ret ++ [v]) []) " ")
  | KeyTypeRollup =>
    match value.Rollup with
    | none => .ok ""
    | some r => .ok (strings.Join r.Contents " ")
  | unrecognised => .ok ""

/-! ## Properties of the calculator -/

open CalcOperator

/-! ### Integer helpers -/

theorem wrapInt64_of_range (x : Int) (h0 : 0 ≤ x) (h1 : x < 2 ^ 63) : wrapInt64 x = x := by
  unfold wrapInt64
  omega

theorem Itoa_natCast (n : Nat) : strconv.Itoa (n : Int) = Nat.repr n := by
  simp [strconv.Itoa]

/-- A counting loop adds to its counter the number of elements that pass the test. -/
theorem foldl_counter (p : String → Bool) (l : List String) (a : Int) :
    l.foldl (fun (n : Int) v => if p v = true then n + 1 else n) a = a + (l.countP p : Nat) := by
  induction l generalizing a with
  | nil => simp
  | cons x xs ih =>
    simp only [List.foldl_cons, List.countP_cons, ih]
    split
    · simp
      omega
    · simp

theorem foldl_count_eq (c : String) (l : List String) :
    l.foldl (fun (n : Int) v => if c = v then n + 1 else n) 0 = (l.count c : Nat) := by
  have h := foldl_counter (fun v => decide (c = v)) l 0
  simp only [decide_eq_true_eq, zero_add] at h
  rw [h, List.count_eq_countP]
  congr 2
  funext v
  rw [Bool.eq_iff_iff]
  simp only [beq_iff_eq, decide_eq_true_eq]
  exact eq_comm

theorem foldl_count_ne (c : String) (l : List String) :
    l.foldl (fun (n : Int) v => if c ≠ v then n + 1 else n) 0
      = ((l.filter (fun v => v ≠ c)).length : Nat) := by
  have h := foldl_counter (fun v => decide (c ≠ v)) l 0
  simp only [decide_eq_true_eq, zero_add] at h
  rw [h, List.countP_eq_length_filter]
  congr 3
  funext v
  rw [Bool.eq_iff_iff]
  simp only [decide_eq_true_eq, ne_eq]
  exact not_congr eq_comm

theorem count_le_length (c : String) (l : List String) : l.count c ≤ l.length :=
  List.count_le_length c l

theorem filter_le_length (p : String → Bool) (l : List String) : (l.filter p).length ≤ l.length :=
  List.length_filter_le p l

/-- The percent computation `k*100/n` on Go ints, for a count `k` of a slice of length `n > 0`
whose hundredfold fits in 64 bits. -/
theorem percent_int (k n : Nat) (hk : k ≤ n) (hn : n ≠ 0) (hfit : n * 100 < 2 ^ 63) :
    divInt (mulInt (k : Int) 100) (n : Int) = .ok ((k * 100 / n : Nat) : Int) := by
  have h1 : mulInt (k : Int) 100 = ((k * 100 : Nat) : Int) := by
    unfold mulInt
    rw [wrapInt64_of_range] <;> push_cast <;> omega
  have hn0 : (n : Int) ≠ 0 := by exact_mod_cast hn
  have hdiv : k * 100 / n ≤ k * 100 := Nat.div_le_self _ _
  rw [h1]
  unfold divInt
  rw [if_neg hn0]
  have h2 : Int.tdiv ((k * 100 : Nat) : Int) (n : Int) = ((k * 100 / n : Nat) : Int) := rfl
  rw [h2, wrapInt64_of_range]
  · exact Int.natCast_nonneg _
  · have : (k * 100 / n : Nat) < 2 ^ 63 := by omega
    exact_mod_cast this

/-! ### The library sort is called by the Median branch only -/

/-- Every operator other than Median gives the same result whatever function stands for
`sort.Float64s`. -/
theorem render_sorter_irrelevant (f g : List Float64 → List Float64) (op : CalcOperator)
    (contents : List String) (hop : op ≠ CalcOperatorMedian) :
    render f op contents = render g op contents := by
  cases op <;> first | rfl | exact absurd rfl hop

/-! ### Counting and percent operators -/

set_option maxRecDepth 100000 in
/-- C1: on an empty contents list the four percent operators raise the integer-division panic
instead of producing a string, while Average on the empty list divides floats and yields
the string NaN. -/
theorem C1_percent_of_empty_contents_panics (Float64s : List Float64 → List Float64) :
    render Float64s CalcOperatorPercentEmpty [] = .error .integerDivideByZero ∧
    render Float64s CalcOperatorPercentNotEmpty [] = .error .integerDivideByZero ∧
    render Float64s CalcOperatorPercentChecked [] = .error .integerDivideByZero ∧
    render Float64s CalcOperatorPercentUnchecked [] = .error .integerDivideByZero ∧
    render Float64s CalcOperatorAverage [] = .ok ⟨["NaN"]⟩ := by
  refine ⟨?_, ?_, ?_, ?_, ?_⟩
  · exact (render_sorter_irrelevant Float64s sort.insertionSort _ _ (by decide)).trans (by decide)
  · exact (render_sorter_irrelevant Float64s sort.insertionSort _ _ (by decide)).trans (by decide)
  · exact (render_sorter_irrelevant Float64s sort.insertionSort _ _ (by decide)).trans (by decide)
  · exact (render_sorter_irrelevant Float64s sort.insertionSort _ _ (by decide)).trans (by decide)
  · exact (render_sorter_irrelevant Float64s sort.insertionSort _ _ (by decide)).trans (by decide!)

/-- C2: CountAll, and likewise CountValues, replaces the contents by the one-element list holding
the decimal rendering of their length, whatever the elements are. -/
theorem C2_count_all_is_length (Float64s : List Float64 → List Float64)
    (contents : List String) :
    render Float64s CalcOperatorCountAll contents = .ok ⟨[Nat.repr contents.length]⟩ ∧
    render Float64s CalcOperatorCountValues contents = .ok ⟨[Nat.repr contents.length]⟩ := by
  constructor <;> simp [render, ValueRollup.RenderContents, Itoa_natCast]

/-- C3: on a non-empty contents list of length n (with 100*n within the range of a 64-bit int)
each percent operator yields the decimal rendering of k*100/n, integer division, followed by
the percent sign, k being the number of elements equal to the empty string (PercentEmpty), not
equal to it (PercentNotEmpty), equal to the check mark (PercentChecked) or not equal to it
(PercentUnchecked). -/
theorem C3_percent_operators (Float64s : List Float64 → List Float64)
    (contents : List String) (hne : contents ≠ [])
    (hfit : contents.length * 100 < 2 ^ 63) :
    render Float64s CalcOperatorPercentEmpty contents
      = .ok ⟨[Nat.repr (contents.count "" * 100 / contents.length) ++ "%"]⟩ ∧
    render Float64s CalcOperatorPercentNotEmpty contents
      = .ok ⟨[Nat.repr ((contents.filter (fun v => v ≠ "")).length * 100 / contents.length)
              ++ "%"]⟩ ∧
    render Float64s CalcOperatorPercentChecked contents
      = .ok ⟨[Nat.repr (contents.count "√" * 100 / contents.length) ++ "%"]⟩ ∧
    render Float64s CalcOperatorPercentUnchecked contents
      = .ok ⟨[Nat.repr ((contents.filter (fun v => v ≠ "√")).length * 100 / contents.length)
              ++ "%"]⟩ := by
  have hn : contents.length ≠ 0 := by
    intro h
    exact hne (List.length_eq_zero.mp h)
  refine ⟨?_, ?_, ?_, ?_⟩
  · simp only [render, ValueRollup.RenderContents, foldl_count_eq]
    rw [percent_int _ _ (count_le_length _ _) hn hfit]
    simp only [Except.map, Itoa_natCast]
  · simp only [render, ValueRollup.RenderContents, foldl_count_ne]
    rw [percent_int _ _ (filter_le_length _ _) hn hfit]
    simp only [Except.map, Itoa_natCast]
  · simp only [render, ValueRollup.RenderContents, foldl_count_eq]
    rw [percent_int _ _ (count_le_length _ _) hn hfit]
    simp only [Except.map, Itoa_natCast]
  · simp only [render, ValueRollup.RenderContents, foldl_count_ne]
    rw [percent_int _ _ (filter_le_length _ _) hn hfit]
    simp only [Except.map, Itoa_natCast]

/-- C3 at the contents of three elements, one of them empty and one checked, with insertion sort
for the library sort. -/
theorem C3_percent_operators_witness :
    ((["", "√", "b"] : List String) ≠ [] ∧ ["", "√", "b"].length * 100 < 2 ^ 63) ∧
    (render sort.insertionSort CalcOperatorPercentEmpty ["", "√", "b"]
      = .ok ⟨[Nat.repr (["", "√", "b"].count "" * 100 / ["", "√", "b"].length) ++ "%"]⟩ ∧
    render sort.insertionSort CalcOperatorPercentNotEmpty ["", "√", "b"]
      = .ok ⟨[Nat.repr ((["", "√", "b"].filter (fun v => v ≠ "")).length * 100
              / ["", "√", "b"].length) ++ "%"]⟩ ∧
    render sort.insertionSort CalcOperatorPercentChecked ["", "√", "b"]
      = .ok ⟨[Nat.repr (["", "√", "b"].count "√" * 100 / ["", "√", "b"].length) ++ "%"]⟩ ∧
    render sort.insertionSort CalcOperatorPercentUnchecked ["", "√", "b"]
      = .ok ⟨[Nat.repr ((["", "√", "b"].filter (fun v => v ≠ "√")).length * 100
              / ["", "√", "b"].length) ++ "%"]⟩) :=
  ⟨⟨by decide, by decide⟩, C3_percent_operators sort.insertionSort ["", "√", "b"] (by decide) (by decide)⟩

/-- C5: CountEmpty yields the decimal count of the elements equal to the empty string and
CountNotEmpty the decimal count of the elements not equal to it. -/
theorem C5_count_empty_and_not_empty (Float64s : List Float64 → List Float64)
    (contents : List String) :
    render Float64s CalcOperatorCountEmpty contents = .ok ⟨[Nat.repr (contents.count "")]⟩ ∧
    render Float64s CalcOperatorCountNotEmpty contents
      = .ok ⟨[Nat.repr (contents.filter (fun v => v ≠ "")).length]⟩ := by
  constructor
  · simp only [render, ValueRollup.RenderContents, foldl_count_eq, Itoa_natCast]
  · simp only [render, ValueRollup.RenderContents, foldl_count_ne, Itoa_natCast]

/-- C6: Checked yields the decimal count of the elements equal to the check mark and Unchecked
the decimal count of all the other elements; on the check mark, the empty string and the check
mark again, Checked gives 2 and Unchecked gives 1. -/
theorem C6_checked_and_unchecked (Float64s : List Float64 → List Float64)
    (contents : List String) :
    render Float64s CalcOperatorChecked contents = .ok ⟨[Nat.repr (contents.count "√")]⟩ ∧
    render Float64s CalcOperatorUnchecked contents
      = .ok ⟨[Nat.repr (contents.filter (fun v => v ≠ "√")).length]⟩ ∧
    render Float64s CalcOperatorChecked ["√", "", "√"] = .ok ⟨["2"]⟩ ∧
    render Float64s CalcOperatorUnchecked ["√", "", "√"] = .ok ⟨["1"]⟩ := by
  refine ⟨?_, ?_, ?_, ?_⟩
  · simp only [render, ValueRollup.RenderContents, foldl_count_eq, Itoa_natCast]
  · simp only [render, ValueRollup.RenderContents, foldl_count_ne, Itoa_natCast]
  · exact (render_sorter_irrelevant Float64s sort.insertionSort _ _ (by decide)).trans (by decide)
  · exact (render_sorter_irrelevant Float64s sort.insertionSort _ _ (by decide)).trans (by decide)

/-- Invariant of the CountUniqueValues loop: the map holds exactly the strings met so far and the
counter is their number. -/
theorem foldl_unique (l : List String) (s : Finset String) (n : Int) (m : String → Bool)
    (hm : ∀ k, m k = true ↔ k ∈ s) (hn : n = (s.card : Nat)) :
    (l.foldl
      (fun (st : Int × (String → Bool)) v =>
        if !st.2 v then (st.1 + 1, fun k => if k = v then true else st.2 k) else st)
      (n, m)).1 = ((s ∪ l.toFinset).card : Nat) := by
  induction l generalizing s n m with
  | nil => simp [hn]
  | cons x xs ih =>
    rw [List.foldl_cons]
    by_cases hx : m x = true
    · have hxs : x ∈ s := (hm x).mp hx
      have hstep : (if (!(n, m).2 x) = true
          then ((n, m).1 + 1, fun k => if k = x then true else (n, m).2 k) else (n, m)) = (n, m) := by
        simp [hx]
      rw [hstep, ih s n m hm hn]
      congr 2
      ext k
      simp only [Finset.mem_union, List.mem_toFinset, List.mem_cons]
      constructor
      · rintro (h | h)
        · exact Or.inl h
        · exact Or.inr (Or.inr h)
      · rintro (h | h | h)
        · exact Or.inl h
        · exact Or.inl (h ▸ hxs)
        · exact Or.inr h
    · have hxs : x ∉ s := fun h => hx ((hm x).mpr h)
      have hstep : (if (!(n, m).2 x) = true
          then ((n, m).1 + 1, fun k => if k = x then true else (n, m).2 k) else (n, m))
          = (n + 1, fun k => if k = x then true else m k) := by
        simp [hx]
      rw [hstep, ih (insert x s) (n + 1) (fun k => if k = x then true else m k)]
      · congr 2
        ext k
        simp only [Finset.mem_union, Finset.mem_insert, List.mem_toFinset, List.mem_cons]
        tauto
      · intro k
        by_cases hk : k = x
        · simp [hk]
        · simp [hk, hm k]
      · rw [Finset.card_insert_of_not_mem hxs, hn]
        push_cast
        rfl

/-- C4: CountUniqueValues replaces the contents by the one-element list holding the decimal
rendering of the number of distinct strings in the list, the cardinality of its set of elements,
in which the empty string counts like any other value. -/
theorem C4_count_unique_values (Float64s : List Float64 → List Float64)
    (contents : List String) :
    render Float64s CalcOperatorCountUniqueValues contents
      = .ok ⟨[Nat.repr contents.toFinset.card]⟩ := by
  have h := foldl_unique contents ∅ 0 (fun _ => false) (by simp) (by simp)
  simp only [Finset.empty_union] at h
  simp only [render, ValueRollup.RenderContents, h, Itoa_natCast]

/-! ### Numeric operators: order, sorting and the loops -/

theorem lt_iff (x y : Float64) :
    x.lt y = true ↔ x.isNaN = false ∧ y.isNaN = false ∧ x.key < y.key := by
  simp [Float64.lt, and_assoc]

theorem lt_eq_false_iff (x y : Float64) (hx : x.isNaN = false) (hy : y.isNaN = false) :
    x.lt y = false ↔ y.key ≤ x.key := by
  simp [Float64.lt, hx, hy]

theorem Less_iff (x y : Float64) :
    sort.Less x y = true ↔
      (x.isNaN = true ∧ y.isNaN = false) ∨ (x.isNaN = false ∧ y.isNaN = false ∧ x.key < y.key) := by
  unfold sort.Less
  rw [Bool.or_eq_true, lt_iff]
  simp only [Bool.and_eq_true, Bool.not_eq_true']
  tauto

theorem Less_asymm (x y : Float64) (h : sort.Less x y = true) : sort.Less y x = false := by
  rw [Less_iff] at h
  rw [← Bool.not_eq_true, Less_iff]
  rcases h with ⟨h1, h2⟩ | ⟨h1, h2, h3⟩
  · rintro (⟨h4, h5⟩ | ⟨h4, h5, h6⟩)
    · simp [h1] at h5
    · simp [h1] at h5
  · rintro (⟨h4, h5⟩ | ⟨h4, h5, h6⟩)
    · simp [h2] at h4
    · omega

theorem Less_trans (x y z : Float64) (h1 : sort.Less x y = true) (h2 : sort.Less y z = true) :
    sort.Less x z = true := by
  rw [Less_iff] at h1 h2 ⊢
  rcases h1 with ⟨a1, a2⟩ | ⟨a1, a2, a3⟩
  · rcases h2 with ⟨b1, b2⟩ | ⟨b1, b2, b3⟩
    · simp [a2] at b1
    · exact Or.inl ⟨a1, b2⟩
  · rcases h2 with ⟨b1, b2⟩ | ⟨b1, b2, b3⟩
    · simp [a2] at b1
    · exact Or.inr ⟨a1, b2, by omega⟩

theorem insertSorted_perm (x : Float64) (l : List Float64) :
    (sort.insertSorted x l).Perm (x :: l) := by
  induction l with
  | nil => exact List.Perm.refl _
  | cons y ys ih =>
    unfold sort.insertSorted
    split
    · exact List.Perm.refl _
    · exact (List.Perm.cons y ih).trans (List.Perm.swap x y ys)

theorem insertSorted_sorted (x : Float64) (l : List Float64)
    (h : l.Pairwise (fun a b => sort.Less b a = false)) :
    (sort.insertSorted x l).Pairwise (fun a b => sort.Less b a = false) := by
  induction l with
  | nil => simp [sort.insertSorted]
  | cons y ys ih =>
    rw [List.pairwise_cons] at h
    unfold sort.insertSorted
    split
    · rename_i hxy
      rw [List.pairwise_cons]
      refine ⟨?_, List.pairwise_cons.mpr h⟩
      intro b hb
      rcases List.mem_cons.mp hb with rfl | hb
      · exact Less_asymm _ _ hxy
      · have hby := h.1 b hb
        cases hbx : sort.Less b x with
        | false => rfl
        | true => rw [Less_trans b x y hbx hxy] at hby; exact hby
    · rename_i hxy
      rw [List.pairwise_cons]
      refine ⟨?_, ih h.2⟩
      intro b hb
      rcases List.mem_cons.mp ((insertSorted_perm x ys).subset hb) with rfl | hb
      · simpa using hxy
      · exact h.1 b hb

theorem foldl_insertSorted_perm (l acc : List Float64) :
    (l.foldl (fun acc x => sort.insertSorted x acc) acc).Perm (acc ++ l) := by
  induction l generalizing acc with
  | nil => simp
  | cons x xs ih =>
    rw [List.foldl_cons]
    refine (ih _).trans ?_
    refine ((insertSorted_perm x acc).append_right xs).trans ?_
    simp only [List.cons_append]
    exact (List.perm_middle).symm

theorem foldl_insertSorted_sorted (l acc : List Float64)
    (h : acc.Pairwise (fun a b => sort.Less b a = false)) :
    (l.foldl (fun acc x => sort.insertSorted x acc) acc).Pairwise
      (fun a b => sort.Less b a = false) := by
  induction l generalizing acc with
  | nil => simpa using h
  | cons x xs ih =>
    rw [List.foldl_cons]
    exact ih _ (insertSorted_sorted x acc h)

/-- Insertion sort returns a rearrangement of its input. -/
theorem insertionSort_perm (l : List Float64) : (sort.insertionSort l).Perm l := by
  simpa [sort.insertionSort] using foldl_insertSorted_perm l []

/-- Insertion sort returns its input in ascending order: no element is `Less` than one before
it. -/
theorem insertionSort_sorted (l : List Float64) :
    (sort.insertionSort l).Pairwise (fun a b => sort.Less b a = false) := by
  simpa [sort.insertionSort] using foldl_insertSorted_sorted l [] List.Pairwise.nil

/-- Insertion sort meets the contract of `sort.Float64s`. -/
theorem insertionSort_sorts : sort.Sorts sort.insertionSort :=
  fun l => ⟨insertionSort_perm l, insertionSort_sorted l⟩

/-- On a list in which two elements neither of which is `Less` than the other are equal, the
contract fixes the result: every function that meets it returns what insertion sort returns. -/
theorem sorts_unique (Float64s : List Float64 → List Float64) (hs : sort.Sorts Float64s)
    (l : List Float64)
    (hl : ∀ a ∈ l, ∀ b ∈ l, sort.Less b a = false → sort.Less a b = false → a = b) :
    Float64s l = sort.insertionSort l := by
  refine List.Perm.eq_of_sorted ?_ (hs l).2 (insertionSort_sorted l)
    ((hs l).1.trans (insertionSort_perm l).symm)
  intro a b ha hb hab hba
  exact hl a ((hs l).1.subset ha) b ((insertionSort_perm l).subset hb) hab hba

set_option maxRecDepth 100000 in
/-- The contract leaves the order of `0` and `-0` open, and Median shows it: on the contents 0, -0,
0 insertion sort puts `-0` in the middle, insertion sort of the rotated list puts `0` there, and
both meet the contract. -/
theorem median_depends_on_order_of_zeros :
    sort.Sorts sort.insertionSort ∧
    sort.Sorts (fun l => sort.insertionSort (l.rotate 1)) ∧
    render sort.insertionSort CalcOperatorMedian ["0", "-0", "0"] = .ok ⟨["-0"]⟩ ∧
    render (fun l => sort.insertionSort (l.rotate 1)) CalcOperatorMedian ["0", "-0", "0"]
      = .ok ⟨["0"]⟩ :=
  ⟨insertionSort_sorts,
    fun l => ⟨(insertionSort_perm _).trans (List.rotate_perm l 1), insertionSort_sorted _⟩,
    by decide!, by decide!⟩

/-- A loop over the contents that skips the empty strings and feeds the parsed value of the others
to a step function is a fold of that function over `parsedNonEmpty`. -/
theorem foldl_parsed {β : Type} (g : β → Float64 → β) (contents : List String) (a : β) :
    contents.foldl (fun st v => if "" ≠ v then g st (strconv.ParseFloat v).1 else st) a
      = (parsedNonEmpty contents).foldl g a := by
  induction contents generalizing a with
  | nil => rfl
  | cons x xs ih =>
    rw [List.foldl_cons, ih]
    by_cases hx : "" = x
    · subst hx
      simp [parsedNonEmpty]
    · have hx2 : x ≠ "" := fun h => hx h.symm
      simp [parsedNonEmpty, hx, hx2]

theorem foldl_snoc_eq (l acc : List Float64) :
    l.foldl (fun (numbers : List Float64) n => numbers ++ [n]) acc = acc ++ l := by
  induction l generalizing acc with
  | nil => simp
  | cons x xs ih => simp [ih]

theorem parsedNonEmpty_eq_nil (contents : List String) (h : ∀ v ∈ contents, v = "") :
    parsedNonEmpty contents = [] := by
  unfold parsedNonEmpty
  rw [List.map_eq_nil_iff, List.filter_eq_nil_iff]
  intro v hv
  simp [h v hv]

theorem parsedNonEmpty_ne_nil (contents : List String) (h : ∃ v ∈ contents, v ≠ "") :
    parsedNonEmpty contents ≠ [] := by
  obtain ⟨v, hv, hne⟩ := h
  unfold parsedNonEmpty
  intro hnil
  rw [List.map_eq_nil_iff, List.filter_eq_nil_iff] at hnil
  exact hnil v hv (by simpa using hne)

/-- The Median branch, its loop and sort expressed over `parsedNonEmpty`. -/
theorem render_median_eq (Float64s : List Float64 → List Float64)
    (contents : List String) :
    render Float64s CalcOperatorMedian contents =
      if 0 < (Float64s (parsedNonEmpty contents)).length then
        if 0 = (Float64s (parsedNonEmpty contents)).length % 2 then
          .ok ⟨[strconv.FormatFloat
            ((((Float64s (parsedNonEmpty contents)).getD
                ((Float64s (parsedNonEmpty contents)).length / 2 - 1) Float64.zero).add
              ((Float64s (parsedNonEmpty contents)).getD
                ((Float64s (parsedNonEmpty contents)).length / 2) Float64.zero)).div
              (Float64.ofInt 2))]⟩
        else
          .ok ⟨[strconv.FormatFloat ((Float64s (parsedNonEmpty contents)).getD
            ((Float64s (parsedNonEmpty contents)).length / 2) Float64.zero)]⟩
      else .ok ⟨contents⟩ := by
  have h := foldl_parsed (fun (numbers : List Float64) n => numbers ++ [n]) contents []
  rw [foldl_snoc_eq, List.nil_append] at h
  simp only [render, ValueRollup.RenderContents]
  rw [h]

/-- Two functions that agree on the parsed values give the same Median. -/
theorem render_median_congr (f g : List Float64 → List Float64) (contents : List String)
    (h : f (parsedNonEmpty contents) = g (parsedNonEmpty contents)) :
    render f CalcOperatorMedian contents = render g CalcOperatorMedian contents := by
  rw [render_median_eq, render_median_eq, h]

set_option maxRecDepth 100000 in
/-- C7, as stated, fails on the contents 1e308, 1e308: both elements are read as the binary64
nearest to 10^308, so the two middle values are that number and their average is that number,
yet Median yields +Inf, the rendering of neither element, because the float64 sum of the two
overflows before it is halved. This holds whatever sort function meeting the contract is used. -/
theorem C7_median_of_large_values_overflows :
    parsedNonEmpty ["1e308", "1e308"] = [Float64.ofDecimal 1 308, Float64.ofDecimal 1 308] ∧
    (∀ Float64s, sort.Sorts Float64s →
      render Float64s CalcOperatorMedian ["1e308", "1e308"] = .ok ⟨["+Inf"]⟩) ∧
    strconv.FormatFloat (Float64.ofDecimal 1 308) ≠ "+Inf" ∧
    (¬ ∃ Float64s, sort.Sorts Float64s ∧ ∃ x ∈ parsedNonEmpty ["1e308", "1e308"],
      render Float64s CalcOperatorMedian ["1e308", "1e308"] = .ok ⟨[strconv.FormatFloat x]⟩) := by
  have huniq : ∀ Float64s, sort.Sorts Float64s →
      render Float64s CalcOperatorMedian ["1e308", "1e308"]
        = render sort.insertionSort CalcOperatorMedian ["1e308", "1e308"] := by
    intro f hf
    exact render_median_congr f sort.insertionSort _ (sorts_unique f hf _ (by decide!))
  have hcode : render sort.insertionSort CalcOperatorMedian ["1e308", "1e308"]
      = .ok ⟨["+Inf"]⟩ := by decide!
  have hnot : ¬ ∃ x ∈ parsedNonEmpty ["1e308", "1e308"],
      render sort.insertionSort CalcOperatorMedian ["1e308", "1e308"]
        = .ok ⟨[strconv.FormatFloat x]⟩ := by decide!
  refine ⟨by decide!, fun f hf => (huniq f hf).trans hcode, by decide!, ?_⟩
  rintro ⟨f, hf, x, hx, h⟩
  exact hnot ⟨x, hx, (huniq f hf).symm.trans h⟩

set_option maxRecDepth 100000 in
/-- C7, amended: let the library sort be any function that returns its input rearranged in
increasing order (NaN first); it is not stable, so the order it leaves `0` and `-0` in is its
own. Median reads the non-empty elements as numbers and sorts them; when their count is odd it
yields the rendering of the middle value of the sorted list, when it is even the rendering of the
float64 expression (a+b)/2 on the two middle values a and b, which is +Inf or -Inf when the sum
a+b overflows; and when every element is empty it leaves the contents as they were. On 1, 3, 2 the
result is 2 and on 1, 2, 3, 4 it is 2.5. -/
theorem C7_median (Float64s : List Float64 → List Float64) (hs : sort.Sorts Float64s)
    (contents : List String) :
    ((∀ v ∈ contents, v = "") → render Float64s CalcOperatorMedian contents = .ok ⟨contents⟩) ∧
    (∀ m, (parsedNonEmpty contents).length = 2 * m + 1 →
      ∃ x, (Float64s (parsedNonEmpty contents))[m]? = some x ∧
        render Float64s CalcOperatorMedian contents = .ok ⟨[strconv.FormatFloat x]⟩) ∧
    (∀ m, (parsedNonEmpty contents).length = 2 * m + 2 →
      ∃ a b, (Float64s (parsedNonEmpty contents))[m]? = some a ∧
        (Float64s (parsedNonEmpty contents))[m + 1]? = some b ∧
        render Float64s CalcOperatorMedian contents
          = .ok ⟨[strconv.FormatFloat ((a.add b).div (Float64.ofInt 2))]⟩) ∧
    render Float64s CalcOperatorMedian ["1", "3", "2"] = .ok ⟨["2"]⟩ ∧
    render Float64s CalcOperatorMedian ["1", "2", "3", "4"] = .ok ⟨["2.5"]⟩ := by
  have hlen : (Float64s (parsedNonEmpty contents)).length = (parsedNonEmpty contents).length :=
    (hs _).1.length_eq
  refine ⟨?_, ?_, ?_, ?_, ?_⟩
  · intro h
    have hnil : Float64s [] = [] := List.Perm.eq_nil (hs []).1
    rw [render_median_eq, parsedNonEmpty_eq_nil contents h, hnil]
    rfl
  · intro m hm
    rw [← hlen] at hm
    have hlt : m < (Float64s (parsedNonEmpty contents)).length := by omega
    refine ⟨(Float64s (parsedNonEmpty contents))[m], List.getElem?_eq_getElem hlt, ?_⟩
    rw [render_median_eq]
    have h1 : 0 < (Float64s (parsedNonEmpty contents)).length := by omega
    have h2 : ¬ (0 = (Float64s (parsedNonEmpty contents)).length % 2) := by omega
    have h3 : (Float64s (parsedNonEmpty contents)).length / 2 = m := by omega
    rw [if_pos h1, if_neg h2, h3, List.getD_eq_getElem _ _ hlt]
  · intro m hm
    rw [← hlen] at hm
    have hlt : m < (Float64s (parsedNonEmpty contents)).length := by omega
    have hlt1 : m + 1 < (Float64s (parsedNonEmpty contents)).length := by omega
    refine ⟨(Float64s (parsedNonEmpty contents))[m],
      (Float64s (parsedNonEmpty contents))[m + 1],
      List.getElem?_eq_getElem hlt, List.getElem?_eq_getElem hlt1, ?_⟩
    rw [render_median_eq]
    have h1 : 0 < (Float64s (parsedNonEmpty contents)).length := by omega
    have h2 : 0 = (Float64s (parsedNonEmpty contents)).length % 2 := by omega
    have h3 : (Float64s (parsedNonEmpty contents)).length / 2 = m + 1 := by omega
    have h4 : m + 1 - 1 = m := by omega
    rw [if_pos h1, if_pos h2, h3, h4, List.getD_eq_getElem _ _ hlt, List.getD_eq_getElem _ _ hlt1]
  · exact (render_median_congr Float64s sort.insertionSort _
      (sorts_unique Float64s hs _ (by decide!))).trans (by decide!)
  · exact (render_median_congr Float64s sort.insertionSort _
      (sorts_unique Float64s hs _ (by decide!))).trans (by decide!)

set_option maxRecDepth 100000 in
/-- C7 with insertion sort for the library sort, at the contents 5, the empty string, 1 and 3. -/
theorem C7_median_witness :
    sort.Sorts sort.insertionSort ∧
    (((∀ v ∈ (["5", "", "1", "3"] : List String), v = "") →
      render sort.insertionSort CalcOperatorMedian ["5", "", "1", "3"]
        = .ok ⟨["5", "", "1", "3"]⟩) ∧
    (∀ m, (parsedNonEmpty ["5", "", "1", "3"]).length = 2 * m + 1 →
      ∃ x, (sort.insertionSort (parsedNonEmpty ["5", "", "1", "3"]))[m]? = some x ∧
        render sort.insertionSort CalcOperatorMedian ["5", "", "1", "3"]
          = .ok ⟨[strconv.FormatFloat x]⟩) ∧
    (∀ m, (parsedNonEmpty ["5", "", "1", "3"]).length = 2 * m + 2 →
      ∃ a b, (sort.insertionSort (parsedNonEmpty ["5", "", "1", "3"]))[m]? = some a ∧
        (sort.insertionSort (parsedNonEmpty ["5", "", "1", "3"]))[m + 1]? = some b ∧
        render sort.insertionSort CalcOperatorMedian ["5", "", "1", "3"]
          = .ok ⟨[strconv.FormatFloat ((a.add b).div (Float64.ofInt 2))]⟩) ∧
    render sort.insertionSort CalcOperatorMedian ["1", "3", "2"] = .ok ⟨["2"]⟩ ∧
    render sort.insertionSort CalcOperatorMedian ["1", "2", "3", "4"] = .ok ⟨["2.5"]⟩) :=
  ⟨insertionSort_sorts, C7_median sort.insertionSort insertionSort_sorts ["5", "", "1", "3"]⟩

theorem bitLenAux_le (fuel n acc L : Nat) (h : n < 2 ^ L) :
    Float64.bitLenAux fuel n acc ≤ acc + L := by
  induction fuel generalizing n acc L with
  | zero => simp [Float64.bitLenAux]
  | succ f ih =>
    unfold Float64.bitLenAux
    split
    · omega
    · rename_i hn
      cases L with
      | zero => simp at h; exact absurd h hn
      | succ L =>
        have h2 : n / 2 < 2 ^ L := by
          rw [Nat.div_lt_iff_lt_mul (by decide)]
          rw [pow_succ] at h
          exact h
        have := ih (n / 2) (acc + 1) L h2
        omega

theorem two_pow_shift_le (n : Nat) (hn : 0 < n) : 2 ^ (Float64.bitLen n - 53) ≤ n := by
  by_contra hlt
  have hlt : n < 2 ^ (Float64.bitLen n - 53) := Nat.lt_of_not_le hlt
  have h := bitLenAux_le n n 0 _ hlt
  have h0 : Float64.bitLen n - 53 = 0 := by
    unfold Float64.bitLen at *
    omega
  rw [h0] at hlt
  simp at hlt
  omega

/-- Rounding a positive whole number of units never gives a zero. -/
theorem roundUnits_ne_zero (s t : Bool) (n : Nat) (hn : 0 < n) :
    Float64.roundUnits s n 1 ≠ .fin t 0 := by
  have hshift := two_pow_shift_le n hn
  have hpos : 0 < 2 ^ (Float64.bitLen n - 53) := Nat.two_pow_pos _
  unfold Float64.roundUnits
  simp only [Nat.div_one, one_mul]
  have hq : 1 ≤ n / 2 ^ (Float64.bitLen n - 53) := (Nat.one_le_div_iff hpos).mpr hshift
  generalize (2 : Nat) ^ 2098 = bound
  intro h
  split_ifs at h <;> injection h with _ hk <;>
    rcases Nat.mul_eq_zero.mp hk with hk | hk <;> omega

/-- A float64 sum is the negative zero only when both terms are. -/
theorem add_eq_negZero (x y : Float64) (h : x.add y = .fin true 0) :
    x = .fin true 0 ∧ y = .fin true 0 := by
  cases x with
  | nan => simp [Float64.add] at h
  | inf s =>
    cases y with
    | nan => simp [Float64.add] at h
    | inf t => simp only [Float64.add] at h; split at h <;> cases h
    | fin t b => simp [Float64.add] at h
  | fin s a =>
    cases y with
    | nan => simp [Float64.add] at h
    | inf t => simp [Float64.add] at h
    | fin t b =>
      simp only [Float64.add] at h
      split at h
      · rename_i hb
        split at h
        · rename_i ha
          injection h with hs _
          simp only [Bool.and_eq_true] at hs
          subst ha hb
          simp [hs.1, hs.2]
        · rename_i ha
          injection h with _ hk
          exact absurd hk ha
      · rename_i hb
        split at h
        · injection h with _ hk
          exact absurd hk hb
        · rename_i ha
          split at h
          · exact absurd h (roundUnits_ne_zero _ _ _ (by omega))
          · split at h
            · cases h
            · split at h
              · exact absurd h (roundUnits_ne_zero _ _ _ (by omega))
              · exact absurd h (roundUnits_ne_zero _ _ _ (by omega))

/-- Adding the positive zero leaves every float64 but the negative zero as it is. -/
theorem add_zero_eq (x : Float64) (h : x ≠ .fin true 0) : x.add Float64.zero = x := by
  cases x with
  | nan => rfl
  | inf s => rfl
  | fin s a =>
    simp only [Float64.add, Float64.zero, if_true]
    split
    · rename_i ha
      subst ha
      cases s with
      | false => rfl
      | true => exact absurd rfl h
    · rfl

/-- Text that `strconv.ParseFloat` rejects as not being a number is read as the positive zero. -/
theorem ParseFloat_syntax_zero (v : String)
    (h : (strconv.ParseFloat v).2 = some .ErrSyntax) : (strconv.ParseFloat v).1 = Float64.zero := by
  unfold strconv.ParseFloat at h ⊢
  simp only at h ⊢
  split
  · split
    · rfl
    · rename_i hsp hn
      rw [hsp] at h
      simp only at h
      rw [if_neg hn] at h
      cases h
  · rename_i hsp
    rw [hsp] at h
    simp only at h
    split
    · rfl
    · rename_i t ht
      rw [ht] at h
      simp only at h
      split
      · rfl
      · rename_i hi
        rw [if_neg hi] at h
        split at h
        · simp at h
        · simp at h

/-- Elements rejected by `strconv.ParseFloat` can be left out of a running float64 sum that is not
the negative zero. -/
theorem foldl_add_drop_syntax (contents : List String) (a : Float64) (ha : a ≠ .fin true 0) :
    (parsedNonEmpty contents).foldl Float64.add a
      = (parsedNonEmpty
          (contents.filter (fun v => (strconv.ParseFloat v).2 ≠ some .ErrSyntax))).foldl
          Float64.add a := by
  induction contents generalizing a with
  | nil => rfl
  | cons x xs ih =>
    by_cases hx : x = ""
    · subst hx
      by_cases hp : (strconv.ParseFloat "").2 = some .ErrSyntax
      · simpa [parsedNonEmpty, List.filter_cons, hp] using ih a ha
      · simpa [parsedNonEmpty, List.filter_cons, hp] using ih a ha
    · by_cases hp : (strconv.ParseFloat x).2 = some .ErrSyntax
      · have hz := ParseFloat_syntax_zero x hp
        have h1 : (parsedNonEmpty (x :: xs)).foldl Float64.add a
            = (parsedNonEmpty xs).foldl Float64.add (a.add Float64.zero) := by
          simp [parsedNonEmpty, List.filter_cons, hx, hz]
        rw [h1, add_zero_eq a ha, ih a ha]
        simp [List.filter_cons, hp]
      · have h1 : (parsedNonEmpty (x :: xs)).foldl Float64.add a
            = (parsedNonEmpty xs).foldl Float64.add (a.add (strconv.ParseFloat x).1) := by
          simp [parsedNonEmpty, List.filter_cons, hx]
        have h2 : (parsedNonEmpty ((x :: xs).filter
              (fun v => (strconv.ParseFloat v).2 ≠ some .ErrSyntax))).foldl Float64.add a
            = (parsedNonEmpty (xs.filter
              (fun v => (strconv.ParseFloat v).2 ≠ some .ErrSyntax))).foldl Float64.add
                (a.add (strconv.ParseFloat x).1) := by
          simp [parsedNonEmpty, List.filter_cons, hx, hp]
        rw [h1, h2]
        exact ih _ (fun h => ha (add_eq_negZero _ _ h).1)

theorem render_sum_eq (Float64s : List Float64 → List Float64)
    (contents : List String) :
    render Float64s CalcOperatorSum contents
      = .ok ⟨[strconv.FormatFloat ((parsedNonEmpty contents).foldl Float64.add Float64.zero)]⟩ := by
  have h := foldl_parsed Float64.add contents Float64.zero
  simp only [render, ValueRollup.RenderContents]
  rw [h]

set_option maxRecDepth 100000 in
/-- C8: Sum yields the one-element list holding the shortest decimal rendering of the float64 sum,
taken from 0 in list order, of the non-empty elements read as numbers; an element that is not
a number is read as 0, and leaving all such elements out does not change the result. On 1.5, abc,
the empty string and 2 the result is 3.5. -/
theorem C8_sum (Float64s : List Float64 → List Float64)
    (contents : List String) :
    render Float64s CalcOperatorSum contents
      = .ok ⟨[strconv.FormatFloat ((parsedNonEmpty contents).foldl Float64.add Float64.zero)]⟩ ∧
    (∀ v, (strconv.ParseFloat v).2 = some .ErrSyntax → (strconv.ParseFloat v).1 = Float64.zero) ∧
    render Float64s CalcOperatorSum contents
      = render Float64s CalcOperatorSum
          (contents.filter (fun v => (strconv.ParseFloat v).2 ≠ some .ErrSyntax)) ∧
    render Float64s CalcOperatorSum ["1.5", "abc", "", "2"] = .ok ⟨["3.5"]⟩ := by
  refine ⟨render_sum_eq Float64s contents, ParseFloat_syntax_zero, ?_,
    (render_sorter_irrelevant Float64s sort.insertionSort _ _ (by decide)).trans (by decide!)⟩
  rw [render_sum_eq, render_sum_eq, foldl_add_drop_syntax contents Float64.zero (by decide)]

/-- The running minimum of the Min loop started at a value that is not NaN: it is not NaN, it is
at most the start and at most every value that is not NaN, and it is the start or one of the
values. -/
theorem min_fold_spec (vals : List Float64) (init : Float64) (hinit : init.isNaN = false) :
    (vals.foldl (fun (min : Float64) n => if n.lt min then n else min) init).isNaN = false ∧
    (vals.foldl (fun (min : Float64) n => if n.lt min then n else min) init).key ≤ init.key ∧
    (∀ v ∈ vals, v.isNaN = false →
      (vals.foldl (fun (min : Float64) n => if n.lt min then n else min) init).key ≤ v.key) ∧
    ((vals.foldl (fun (min : Float64) n => if n.lt min then n else min) init) = init ∨
      (vals.foldl (fun (min : Float64) n => if n.lt min then n else min) init) ∈ vals) := by
  induction vals generalizing init with
  | nil => simp [hinit]
  | cons x xs ih =>
    rw [List.foldl_cons]
    by_cases hx : x.lt init = true
    · rw [if_pos hx]
      have hx' := (lt_iff x init).mp hx
      obtain ⟨h1, h2, h3, h4⟩ := ih x hx'.1
      refine ⟨h1, by omega, ?_, ?_⟩
      · intro v hv hvn
        rcases List.mem_cons.mp hv with rfl | hv
        · exact h2
        · exact h3 v hv hvn
      · rcases h4 with h4 | h4
        · exact Or.inr (by rw [h4]; exact List.mem_cons_self _ _)
        · exact Or.inr (List.mem_cons_of_mem _ h4)
    · rw [if_neg hx]
      obtain ⟨h1, h2, h3, h4⟩ := ih init hinit
      refine ⟨h1, h2, ?_, ?_⟩
      · intro v hv hvn
        rcases List.mem_cons.mp hv with rfl | hv
        · have := (lt_eq_false_iff v init hvn hinit).mp (by simpa using hx)
          omega
        · exact h3 v hv hvn
      · rcases h4 with h4 | h4
        · exact Or.inl h4
        · exact Or.inr (List.mem_cons_of_mem _ h4)

/-- The running maximum of the Max loop started at a value that is not NaN. -/
theorem max_fold_spec (vals : List Float64) (init : Float64) (hinit : init.isNaN = false) :
    (vals.foldl (fun (max : Float64) n => if n.gt max then n else max) init).isNaN = false ∧
    init.key ≤ (vals.foldl (fun (max : Float64) n => if n.gt max then n else max) init).key ∧
    (∀ v ∈ vals, v.isNaN = false →
      v.key ≤ (vals.foldl (fun (max : Float64) n => if n.gt max then n else max) init).key) ∧
    ((vals.foldl (fun (max : Float64) n => if n.gt max then n else max) init) = init ∨
      (vals.foldl (fun (max : Float64) n => if n.gt max then n else max) init) ∈ vals) := by
  induction vals generalizing init with
  | nil => simp [hinit]
  | cons x xs ih =>
    rw [List.foldl_cons]
    by_cases hx : x.gt init = true
    · rw [if_pos hx]
      have hx' := (lt_iff init x).mp hx
      obtain ⟨h1, h2, h3, h4⟩ := ih x hx'.2.1
      refine ⟨h1, by omega, ?_, ?_⟩
      · intro v hv hvn
        rcases List.mem_cons.mp hv with rfl | hv
        · exact h2
        · exact h3 v hv hvn
      · rcases h4 with h4 | h4
        · exact Or.inr (by rw [h4]; exact List.mem_cons_self _ _)
        · exact Or.inr (List.mem_cons_of_mem _ h4)
    · rw [if_neg hx]
      obtain ⟨h1, h2, h3, h4⟩ := ih init hinit
      refine ⟨h1, h2, ?_, ?_⟩
      · intro v hv hvn
        rcases List.mem_cons.mp hv with rfl | hv
        · have := (lt_eq_false_iff init v hinit hvn).mp (by simpa [Float64.gt] using hx)
          omega
        · exact h3 v hv hvn
      · rcases h4 with h4 | h4
        · exact Or.inl h4
        · exact Or.inr (List.mem_cons_of_mem _ h4)

/-- A loop whose test never succeeds returns its start value. -/
theorem fold_keep (vals : List Float64) (init : Float64) (test : Float64 → Float64 → Bool)
    (h : ∀ v ∈ vals, test v init = false) :
    vals.foldl (fun (acc : Float64) n => if test n acc then n else acc) init = init := by
  induction vals with
  | nil => rfl
  | cons x xs ih =>
    rw [List.foldl_cons, h x (List.mem_cons_self _ _)]
    exact ih (fun v hv => h v (List.mem_cons_of_mem _ hv))

/-- The Range loop runs the Min loop and the Max loop side by side. -/
theorem range_fold_eq (vals : List Float64) (a b : Float64) :
    vals.foldl
      (fun (st : Float64 × Float64) n =>
        (if n.lt st.1 then n else st.1, if n.gt st.2 then n else st.2)) (a, b)
      = (vals.foldl (fun (min : Float64) n => if n.lt min then n else min) a,
         vals.foldl (fun (max : Float64) n => if n.gt max then n else max) b) := by
  induction vals generalizing a b with
  | nil => rfl
  | cons x xs ih => simp only [List.foldl_cons, ih]

theorem render_min_eq (Float64s : List Float64 → List Float64)
    (contents : List String) :
    render Float64s CalcOperatorMin contents = .ok ⟨[strconv.FormatFloat
      ((parsedNonEmpty contents).foldl (fun (min : Float64) n => if n.lt min then n else min)
        math.MaxFloat64)]⟩ := by
  have h := foldl_parsed (fun (min : Float64) n => if n.lt min then n else min) contents
    math.MaxFloat64
  simp only [render, ValueRollup.RenderContents]
  rw [← h]

theorem render_max_eq (Float64s : List Float64 → List Float64)
    (contents : List String) :
    render Float64s CalcOperatorMax contents = .ok ⟨[strconv.FormatFloat
      ((parsedNonEmpty contents).foldl (fun (max : Float64) n => if n.gt max then n else max)
        math.MaxFloat64.neg)]⟩ := by
  have h := foldl_parsed (fun (max : Float64) n => if n.gt max then n else max) contents
    math.MaxFloat64.neg
  simp only [render, ValueRollup.RenderContents]
  rw [← h]

theorem render_range_eq (Float64s : List Float64 → List Float64)
    (contents : List String) :
    render Float64s CalcOperatorRange contents = .ok ⟨[strconv.FormatFloat
      (((parsedNonEmpty contents).foldl (fun (max : Float64) n => if n.gt max then n else max)
          math.MaxFloat64.neg).sub
        ((parsedNonEmpty contents).foldl (fun (min : Float64) n => if n.lt min then n else min)
          math.MaxFloat64))]⟩ := by
  have h := foldl_parsed
    (fun (st : Float64 × Float64) n =>
      (if n.lt st.1 then n else st.1, if n.gt st.2 then n else st.2))
    contents (math.MaxFloat64, math.MaxFloat64.neg)
  rw [range_fold_eq] at h
  simp only [render, ValueRollup.RenderContents]
  rw [h]

/-! ### Min, Max, Range and the collapse of the contents -/

set_option maxRecDepth 100000 in
/-- C9, as stated, fails on the one-element contents Inf: the element is non-empty and is read as
the number +Inf, yet Min yields the rendering of the +max-float sentinel, which is the rendering of
no element of the list; likewise Max on -Inf yields the -max-float sentinel. -/
theorem C9_min_of_infinity_is_sentinel :
    parsedNonEmpty ["Inf"] = [.inf false] ∧
    (∀ Float64s,
      render Float64s CalcOperatorMin ["Inf"] = .ok ⟨[strconv.FormatFloat math.MaxFloat64]⟩) ∧
    (¬ ∃ Float64s, ∃ x ∈ parsedNonEmpty ["Inf"],
        render Float64s CalcOperatorMin ["Inf"] = .ok ⟨[strconv.FormatFloat x]⟩) ∧
    parsedNonEmpty ["-Inf"] = [.inf true] ∧
    (∀ Float64s,
      render Float64s CalcOperatorMax ["-Inf"]
        = .ok ⟨[strconv.FormatFloat math.MaxFloat64.neg]⟩) ∧
    (¬ ∃ Float64s, ∃ x ∈ parsedNonEmpty ["-Inf"],
        render Float64s CalcOperatorMax ["-Inf"] = .ok ⟨[strconv.FormatFloat x]⟩) := by
  have hmin : ¬ ∃ x ∈ parsedNonEmpty ["Inf"],
      render sort.insertionSort CalcOperatorMin ["Inf"] = .ok ⟨[strconv.FormatFloat x]⟩ := by
    decide!
  have hmax : ¬ ∃ x ∈ parsedNonEmpty ["-Inf"],
      render sort.insertionSort CalcOperatorMax ["-Inf"] = .ok ⟨[strconv.FormatFloat x]⟩ := by
    decide!
  refine ⟨by decide!, ?_, ?_, by decide!, ?_, ?_⟩
  · intro f
    exact (render_sorter_irrelevant f sort.insertionSort _ _ (by decide)).trans (by decide!)
  · rintro ⟨f, x, hx, h⟩
    exact hmin ⟨x, hx, (render_sorter_irrelevant f sort.insertionSort _ _ (by decide)).symm.trans h⟩
  · intro f
    exact (render_sorter_irrelevant f sort.insertionSort _ _ (by decide)).trans (by decide!)
  · rintro ⟨f, x, hx, h⟩
    exact hmax ⟨x, hx, (render_sorter_irrelevant f sort.insertionSort _ _ (by decide)).symm.trans h⟩

set_option maxRecDepth 100000 in
/-- C9, amended: Min yields the rendering of the least of the +max-float sentinel and the parsed
values of the non-empty elements: a value m that is not NaN, is the sentinel or one of the parsed
values, and has neither the sentinel nor any parsed value below it; m is the sentinel itself
when no parsed value is below the sentinel. Max yields, in the same way, the greatest of the
-max-float sentinel and the parsed values, and Range yields the rendering of that maximum minus
that minimum. On 3, 1, 2 Min gives 1, Max gives 3 and Range gives 2. -/
theorem C9_min_max_range (Float64s : List Float64 → List Float64)
    (contents : List String) :
    (∃ m M : Float64,
      render Float64s CalcOperatorMin contents = .ok ⟨[strconv.FormatFloat m]⟩ ∧
      render Float64s CalcOperatorMax contents = .ok ⟨[strconv.FormatFloat M]⟩ ∧
      render Float64s CalcOperatorRange contents = .ok ⟨[strconv.FormatFloat (M.sub m)]⟩ ∧
      m.isNaN = false ∧
      (m = math.MaxFloat64 ∨ m ∈ parsedNonEmpty contents) ∧
      math.MaxFloat64.lt m = false ∧
      (∀ v ∈ parsedNonEmpty contents, v.lt m = false) ∧
      ((∀ v ∈ parsedNonEmpty contents, v.lt math.MaxFloat64 = false) → m = math.MaxFloat64) ∧
      M.isNaN = false ∧
      (M = math.MaxFloat64.neg ∨ M ∈ parsedNonEmpty contents) ∧
      math.MaxFloat64.neg.gt M = false ∧
      (∀ v ∈ parsedNonEmpty contents, v.gt M = false) ∧
      ((∀ v ∈ parsedNonEmpty contents, v.gt math.MaxFloat64.neg = false) →
        M = math.MaxFloat64.neg)) ∧
    render Float64s CalcOperatorMin ["3", "1", "2"] = .ok ⟨["1"]⟩ ∧
    render Float64s CalcOperatorMax ["3", "1", "2"] = .ok ⟨["3"]⟩ ∧
    render Float64s CalcOperatorRange ["3", "1", "2"] = .ok ⟨["2"]⟩ := by
  refine ⟨?_, (render_sorter_irrelevant Float64s sort.insertionSort _ _ (by decide)).trans (by decide!),
    (render_sorter_irrelevant Float64s sort.insertionSort _ _ (by decide)).trans (by decide!),
    (render_sorter_irrelevant Float64s sort.insertionSort _ _ (by decide)).trans (by decide!)⟩
  have hmaxNaN : math.MaxFloat64.isNaN = false := rfl
  have hnegNaN : math.MaxFloat64.neg.isNaN = false := rfl
  obtain ⟨m1, m2, m3, m4⟩ := min_fold_spec (parsedNonEmpty contents) math.MaxFloat64 hmaxNaN
  obtain ⟨n1, n2, n3, n4⟩ := max_fold_spec (parsedNonEmpty contents) math.MaxFloat64.neg hnegNaN
  refine ⟨_, _, render_min_eq Float64s contents, render_max_eq Float64s contents,
    render_range_eq Float64s contents,
    m1, m4, ?_, ?_, ?_, n1, n4, ?_, ?_, ?_⟩
  · exact (lt_eq_false_iff _ _ hmaxNaN m1).mpr m2
  · intro v hv
    cases hvn : v.isNaN with
    | true => simp [Float64.lt, hvn]
    | false => exact (lt_eq_false_iff _ _ hvn m1).mpr (m3 v hv hvn)
  · intro h
    exact fold_keep _ _ Float64.lt h
  · exact (lt_eq_false_iff _ _ n1 hnegNaN).mpr n2
  · intro v hv
    cases hvn : v.isNaN with
    | true => simp [Float64.gt, Float64.lt, hvn]
    | false => exact (lt_eq_false_iff _ _ n1 hvn).mpr (n3 v hv hvn)
  · intro h
    exact fold_keep _ _ Float64.gt h

/-- C10, as stated, fails for Median on two empty strings: the list is non-empty, the operator is
not None, and the contents stay the two-element list they were, whatever sort function meeting
the contract is used. -/
theorem C10_median_of_empty_strings_keeps_list :
    (∀ Float64s, sort.Sorts Float64s →
      render Float64s CalcOperatorMedian ["", ""] = .ok ⟨["", ""]⟩) ∧
    ¬ ∃ Float64s, sort.Sorts Float64s ∧
      ∃ s, render Float64s CalcOperatorMedian ["", ""] = .ok ⟨[s]⟩ := by
  have h : ∀ Float64s, sort.Sorts Float64s →
      render Float64s CalcOperatorMedian ["", ""] = .ok ⟨["", ""]⟩ := by
    intro f hf
    have hnil : f [] = [] := List.Perm.eq_nil (hf []).1
    rw [render_median_eq, parsedNonEmpty_eq_nil ["", ""] (by decide), hnil]
    rfl
  refine ⟨h, ?_⟩
  rintro ⟨f, hf, s, hs⟩
  rw [h f hf] at hs
  simp at hs

/-- C10, amended: on a non-empty contents list every operator other than None leaves exactly one
element, the summary, whatever the elements are, provided that for Median at least one element
is non-empty. The library sort is any function that returns its input rearranged in increasing
order. -/
theorem C10_aggregation_collapses (Float64s : List Float64 → List Float64)
    (hs : sort.Sorts Float64s) (op : CalcOperator) (contents : List String)
    (hne : contents ≠ []) (hop : op ≠ CalcOperatorNone)
    (hmed : op = CalcOperatorMedian → ∃ v ∈ contents, v ≠ "") :
    ∃ s, render Float64s op contents = .ok ⟨[s]⟩ := by
  have hn : (contents.length : Int) ≠ 0 := by
    intro h
    exact hne (List.length_eq_zero.mp (by exact_mod_cast h))
  cases op with
  | CalcOperatorNone => exact absurd rfl hop
  | CalcOperatorMedian =>
    have hpos : 0 < (Float64s (parsedNonEmpty contents)).length := by
      rw [(hs _).1.length_eq]
      exact List.length_pos.mpr (parsedNonEmpty_ne_nil contents (hmed rfl))
    rw [render_median_eq, if_pos hpos]
    split
    · exact ⟨_, rfl⟩
    · exact ⟨_, rfl⟩
  | CalcOperatorPercentEmpty =>
    simp only [render, ValueRollup.RenderContents, divInt, if_neg hn, Except.map]
    exact ⟨_, rfl⟩
  | CalcOperatorPercentNotEmpty =>
    simp only [render, ValueRollup.RenderContents, divInt, if_neg hn, Except.map]
    exact ⟨_, rfl⟩
  | CalcOperatorPercentChecked =>
    simp only [render, ValueRollup.RenderContents, divInt, if_neg hn, Except.map]
    exact ⟨_, rfl⟩
  | CalcOperatorPercentUnchecked =>
    simp only [render, ValueRollup.RenderContents, divInt, if_neg hn, Except.map]
    exact ⟨_, rfl⟩
  | _ => exact ⟨_, rfl⟩

/-- C10 at Median on the contents 1 and the empty string, with insertion sort for the library
sort. -/
theorem C10_aggregation_collapses_witness :
    (sort.Sorts sort.insertionSort ∧
      (["1", ""] : List String) ≠ [] ∧ CalcOperatorMedian ≠ CalcOperatorNone ∧
      (CalcOperatorMedian = CalcOperatorMedian → ∃ v ∈ (["1", ""] : List String), v ≠ "")) ∧
    ∃ s, render sort.insertionSort CalcOperatorMedian ["1", ""] = .ok ⟨[s]⟩ :=
  ⟨⟨insertionSort_sorts, by decide, by decide, fun _ => ⟨"1", by decide, by decide⟩⟩,
    C10_aggregation_collapses sort.insertionSort insertionSort_sorts CalcOperatorMedian ["1", ""]
      (by decide) (by decide) (fun _ => ⟨"1", by decide, by decide⟩)⟩

/-! ### Where the calculator panics -/

/-- The calculator panics exactly when a percent operator meets an empty contents list. -/
theorem render_error_iff (Float64s : List Float64 → List Float64) (op : CalcOperator)
    (contents : List String) :
    (∃ p, render Float64s op contents = .error p) ↔
      contents = [] ∧ (op = CalcOperatorPercentEmpty ∨ op = CalcOperatorPercentNotEmpty ∨
        op = CalcOperatorPercentChecked ∨ op = CalcOperatorPercentUnchecked) := by
  have hlen : ((contents.length : Int) = 0) ↔ contents = [] := by
    rw [Int.natCast_eq_zero]
    exact List.length_eq_zero
  have hpercent : ∀ a : Int,
      (∃ p, (divInt a (contents.length : Int)).map
          (fun q => (⟨[strconv.Itoa q ++ "%"]⟩ : ValueRollup)) = .error p) ↔ contents = [] := by
    intro a
    unfold divInt
    by_cases h : (contents.length : Int) = 0
    · rw [if_pos h]
      exact ⟨fun _ => hlen.mp h, fun _ => ⟨_, rfl⟩⟩
    · rw [if_neg h]
      refine ⟨?_, fun hc => absurd (hlen.mpr hc) h⟩
      rintro ⟨p, hp⟩
      simp [Except.map] at hp
  cases op with
  | CalcOperatorPercentEmpty =>
    simp only [render, ValueRollup.RenderContents, hpercent]
    simp
  | CalcOperatorPercentNotEmpty =>
    simp only [render, ValueRollup.RenderContents, hpercent]
    simp
  | CalcOperatorPercentChecked =>
    simp only [render, ValueRollup.RenderContents, hpercent]
    simp
  | CalcOperatorPercentUnchecked =>
    simp only [render, ValueRollup.RenderContents, hpercent]
    simp
  | CalcOperatorMedian =>
    rw [render_median_eq]
    constructor
    · rintro ⟨p, hp⟩
      split at hp
      · split at hp <;> cases hp
      · cases hp
    · rintro ⟨_, h⟩
      simp at h
  | _ =>
    constructor
    · rintro ⟨p, hp⟩
      cases hp
    · rintro ⟨_, h⟩
      simp at h

/-! ### Relations between the counting and percent operators -/

/-- The elements equal to a string and the elements different from it make up the list. -/
theorem count_add_filter_ne (c : String) (l : List String) :
    l.count c + (l.filter (fun v => v ≠ c)).length = l.length := by
  rw [List.count_eq_countP, ← List.countP_eq_length_filter,
    List.length_eq_countP_add_countP (fun v => v == c) l]
  congr 1
  apply List.countP_congr
  intro v _
  simp

/-- Two complementary integer percentages: `k` and `n - k` out of `n > 0`. -/
theorem percent_pair (k m n : Nat) (hn : 0 < n) (hkm : k + m = n) :
    k * 100 / n ≤ 100 ∧ m * 100 / n ≤ 100 ∧
    (k * 100 / n + m * 100 / n = 100 ∨ k * 100 / n + m * 100 / n = 99) ∧
    (k * 100 / n + m * 100 / n = 100 ↔ n ∣ 100 * k) := by
  have hq := Nat.div_add_mod (k * 100) n
  have hr := Nat.mod_lt (k * 100) hn
  have hdvd : n ∣ 100 * k ↔ k * 100 % n = 0 := by
    rw [Nat.mul_comm 100 k]
    exact Nat.dvd_iff_mod_eq_zero
  generalize hqd : k * 100 / n = q at hq ⊢
  generalize hrd : k * 100 % n = r at hq hr hdvd
  have hq100 : q ≤ 100 := by
    by_contra hcon
    have h101 : n * 101 ≤ n * q := Nat.mul_le_mul_left n (by omega)
    omega
  by_cases hr0 : r = 0
  · have hm : m * 100 / n = 100 - q := by
      apply Nat.div_eq_of_lt_le
      · rw [Nat.sub_mul, Nat.mul_comm q n]
        omega
      · have : (100 - q + 1) * n = (100 - q) * n + n := by ring
        rw [this, Nat.sub_mul, Nat.mul_comm q n]
        have h2 : n * q ≤ 100 * n := by
          rw [Nat.mul_comm 100 n]
          exact Nat.mul_le_mul_left n hq100
        omega
    rw [hm, hdvd]
    refine ⟨hq100, by omega, by omega, ?_⟩
    constructor
    · intro _; exact hr0
    · intro _; omega
  · have hq99 : q ≤ 99 := by
      by_contra hcon
      have h100 : n * 100 ≤ n * q := Nat.mul_le_mul_left n (by omega)
      omega
    have hm : m * 100 / n = 99 - q := by
      apply Nat.div_eq_of_lt_le
      · rw [Nat.sub_mul, Nat.mul_comm q n]
        have h2 : n * q ≤ 99 * n := by
          rw [Nat.mul_comm 99 n]
          exact Nat.mul_le_mul_left n hq99
        omega
      · have : (99 - q + 1) * n = (99 - q) * n + n := by ring
        rw [this, Nat.sub_mul, Nat.mul_comm q n]
        have h2 : n * q ≤ 99 * n := by
          rw [Nat.mul_comm 99 n]
          exact Nat.mul_le_mul_left n hq99
        omega
    rw [hm, hdvd]
    refine ⟨hq100, by omega, by omega, ?_⟩
    constructor
    · intro h; omega
    · intro h; exact absurd h hr0



theorem render_percent_eq (Float64s : List Float64 → List Float64)
    (contents : List String) (hne : contents ≠ [])
    (hfit : contents.length * 100 < 2 ^ 63) :
    render Float64s CalcOperatorPercentEmpty contents
      = .ok ⟨[Nat.repr (contents.count "" * 100 / contents.length) ++ "%"]⟩ ∧
    render Float64s CalcOperatorPercentNotEmpty contents
      = .ok ⟨[Nat.repr ((contents.filter (fun v => v ≠ "")).length * 100 / contents.length)
              ++ "%"]⟩ ∧
    render Float64s CalcOperatorPercentChecked contents
      = .ok ⟨[Nat.repr (contents.count "√" * 100 / contents.length) ++ "%"]⟩ ∧
    render Float64s CalcOperatorPercentUnchecked contents
      = .ok ⟨[Nat.repr ((contents.filter (fun v => v ≠ "√")).length * 100 / contents.length)
              ++ "%"]⟩ := by
  have hn : contents.length ≠ 0 := by
    intro h
    exact hne (List.length_eq_zero.mp h)
  refine ⟨?_, ?_, ?_, ?_⟩
  · simp only [render, ValueRollup.RenderContents, foldl_count_eq]
    rw [percent_int _ _ (count_le_length _ _) hn hfit]
    simp only [Except.map, Itoa_natCast]
  · simp only [render, ValueRollup.RenderContents, foldl_count_ne]
    rw [percent_int _ _ (filter_le_length _ _) hn hfit]
    simp only [Except.map, Itoa_natCast]
  · simp only [render, ValueRollup.RenderContents, foldl_count_eq]
    rw [percent_int _ _ (count_le_length _ _) hn hfit]
    simp only [Except.map, Itoa_natCast]
  · simp only [render, ValueRollup.RenderContents, foldl_count_ne]
    rw [percent_int _ _ (filter_le_length _ _) hn hfit]
    simp only [Except.map, Itoa_natCast]

/-- C11: with operator None, and likewise with an absent calculation, RenderContents leaves the
contents exactly as they were. -/
theorem C11_none_leaves_contents (Float64s : List Float64 → List Float64)
    (contents : List String) :
    ValueRollup.RenderContents Float64s ⟨contents⟩ (some ⟨CalcOperatorNone⟩) = .ok ⟨contents⟩ ∧
    ValueRollup.RenderContents Float64s ⟨contents⟩ none = .ok ⟨contents⟩ :=
  ⟨rfl, rfl⟩

/-- C18: on a non-empty contents list (with 100 times its length within the range of a 64-bit
int) PercentEmpty and PercentNotEmpty produce integer percentages a and b, each between 0 and 100,
that add up to 100 or to 99, and to 100 exactly when the length of the list divides 100 times the
number of empty elements; the same holds for PercentChecked and PercentUnchecked with the number
of checked elements. -/
theorem C18_percent_pairs (Float64s : List Float64 → List Float64)
    (contents : List String) (hne : contents ≠ [])
    (hfit : contents.length * 100 < 2 ^ 63) :
    (∃ a b : Nat,
      render Float64s CalcOperatorPercentEmpty contents = .ok ⟨[Nat.repr a ++ "%"]⟩ ∧
      render Float64s CalcOperatorPercentNotEmpty contents = .ok ⟨[Nat.repr b ++ "%"]⟩ ∧
      a ≤ 100 ∧ b ≤ 100 ∧ (a + b = 100 ∨ a + b = 99) ∧
      (a + b = 100 ↔ contents.length ∣ 100 * contents.count "")) ∧
    (∃ c d : Nat,
      render Float64s CalcOperatorPercentChecked contents = .ok ⟨[Nat.repr c ++ "%"]⟩ ∧
      render Float64s CalcOperatorPercentUnchecked contents = .ok ⟨[Nat.repr d ++ "%"]⟩ ∧
      c ≤ 100 ∧ d ≤ 100 ∧ (c + d = 100 ∨ c + d = 99) ∧
      (c + d = 100 ↔ contents.length ∣ 100 * contents.count "√")) := by
  have hpos : 0 < contents.length := List.length_pos.mpr hne
  obtain ⟨h1, h2, h3, h4⟩ := render_percent_eq Float64s contents hne hfit
  obtain ⟨e1, e2, e3, e4⟩ := percent_pair _ _ _ hpos (count_add_filter_ne "" contents)
  obtain ⟨c1, c2, c3, c4⟩ := percent_pair _ _ _ hpos (count_add_filter_ne "√" contents)
  exact ⟨⟨_, _, h1, h2, e1, e2, e3, e4⟩, ⟨_, _, h3, h4, c1, c2, c3, c4⟩⟩

/-- C18 at the contents of three elements, one of them empty and one checked: 33 and 66; with
insertion sort for the library sort. -/
theorem C18_percent_pairs_witness :
    ((["", "√", "b"] : List String) ≠ [] ∧ ["", "√", "b"].length * 100 < 2 ^ 63) ∧
    ((∃ a b : Nat,
      render sort.insertionSort CalcOperatorPercentEmpty ["", "√", "b"] = .ok ⟨[Nat.repr a ++ "%"]⟩ ∧
      render sort.insertionSort CalcOperatorPercentNotEmpty ["", "√", "b"] = .ok ⟨[Nat.repr b ++ "%"]⟩ ∧
      a ≤ 100 ∧ b ≤ 100 ∧ (a + b = 100 ∨ a + b = 99) ∧
      (a + b = 100 ↔ ["", "√", "b"].length ∣ 100 * ["", "√", "b"].count "")) ∧
    (∃ c d : Nat,
      render sort.insertionSort CalcOperatorPercentChecked ["", "√", "b"] = .ok ⟨[Nat.repr c ++ "%"]⟩ ∧
      render sort.insertionSort CalcOperatorPercentUnchecked ["", "√", "b"] = .ok ⟨[Nat.repr d ++ "%"]⟩ ∧
      c ≤ 100 ∧ d ≤ 100 ∧ (c + d = 100 ∨ c + d = 99) ∧
      (c + d = 100 ↔ ["", "√", "b"].length ∣ 100 * ["", "√", "b"].count "√"))) :=
  ⟨⟨by decide, by decide⟩, C18_percent_pairs sort.insertionSort ["", "√", "b"] (by decide) (by decide)⟩

/-- C19: the numbers produced by CountEmpty and CountNotEmpty add up to the number produced by
CountAll, which is the length of the list, and so do the numbers produced by Checked and
Unchecked; the number produced by CountUniqueValues is at most the length and at least 1 when the
list is non-empty. -/
theorem C19_counts_add_up (Float64s : List Float64 → List Float64)
    (contents : List String) :
    ∃ e ne ch un u : Nat,
      render Float64s CalcOperatorCountEmpty contents = .ok ⟨[Nat.repr e]⟩ ∧
      render Float64s CalcOperatorCountNotEmpty contents = .ok ⟨[Nat.repr ne]⟩ ∧
      render Float64s CalcOperatorChecked contents = .ok ⟨[Nat.repr ch]⟩ ∧
      render Float64s CalcOperatorUnchecked contents = .ok ⟨[Nat.repr un]⟩ ∧
      render Float64s CalcOperatorCountUniqueValues contents = .ok ⟨[Nat.repr u]⟩ ∧
      render Float64s CalcOperatorCountAll contents = .ok ⟨[Nat.repr contents.length]⟩ ∧
      e + ne = contents.length ∧ ch + un = contents.length ∧
      u ≤ contents.length ∧ (contents ≠ [] → 1 ≤ u) := by
  have hu := foldl_unique contents ∅ 0 (fun _ => false) (by simp) (by simp)
  simp only [Finset.empty_union] at hu
  refine ⟨contents.count "", (contents.filter (fun v => v ≠ "")).length, contents.count "√",
    (contents.filter (fun v => v ≠ "√")).length, contents.toFinset.card, ?_, ?_, ?_, ?_, ?_, ?_,
    count_add_filter_ne "" contents, count_add_filter_ne "√" contents,
    List.toFinset_card_le contents, ?_⟩
  · simp only [render, ValueRollup.RenderContents, foldl_count_eq, Itoa_natCast]
  · simp only [render, ValueRollup.RenderContents, foldl_count_ne, Itoa_natCast]
  · simp only [render, ValueRollup.RenderContents, foldl_count_eq, Itoa_natCast]
  · simp only [render, ValueRollup.RenderContents, foldl_count_ne, Itoa_natCast]
  · simp only [render, ValueRollup.RenderContents, hu, Itoa_natCast]
  · simp only [render, ValueRollup.RenderContents, Itoa_natCast]
  · intro hne
    obtain ⟨x, hx⟩ := List.exists_mem_of_ne_nil contents hne
    exact Finset.card_pos.mpr ⟨x, List.mem_toFinset.mpr hx⟩

/-! ### Rendering a value -/

theorem collectContents_of_no_nil {α : Type} (content : α → String) (xs : List (Option α))
    (h : ∀ x ∈ xs, x ≠ none) : ∃ ret, collectContents content xs = .ok ret := by
  induction xs with
  | nil => exact ⟨[], rfl⟩
  | cons x rest ih =>
    obtain ⟨ret, hret⟩ := ih (fun y hy => h y (List.mem_cons_of_mem _ hy))
    cases x with
    | none => exact absurd rfl (h none (List.mem_cons_self _ _))
    | some v => exact ⟨content v :: ret, by simp [collectContents, hret, Except.map]⟩

theorem foldl_append_singleton (l acc : List String) :
    l.foldl (fun ret v => ret ++ [v]) acc = acc ++ l := by
  induction l generalizing acc with
  | nil => simp
  | cons x xs ih => simp [ih]

open KeyType in
/-- C12: for every recognised kind other than Relation whose payload is absent (a nil pointer, or
an empty list for Select, MultiSelect and MultiAsset), and for an unrecognised kind, String
returns the empty string, whatever the other fields hold. -/
theorem C12_missing_payload_renders_empty (v : Value) :
    (v.Type_ = KeyTypeBlock → v.Block = none → v.String = .ok "") ∧
    (v.Type_ = KeyTypeText → v.Text = none → v.String = .ok "") ∧
    (v.Type_ = KeyTypeNumber → v.Number = none → v.String = .ok "") ∧
    (v.Type_ = KeyTypeDate → v.Date = none → v.String = .ok "") ∧
    (v.Type_ = KeyTypeSelect → v.MSelect = [] → v.String = .ok "") ∧
    (v.Type_ = KeyTypeMSelect → v.MSelect = [] → v.String = .ok "") ∧
    (v.Type_ = KeyTypeURL → v.URL = none → v.String = .ok "") ∧
    (v.Type_ = KeyTypeEmail → v.Email = none → v.String = .ok "") ∧
    (v.Type_ = KeyTypePhone → v.Phone = none → v.String = .ok "") ∧
    (v.Type_ = KeyTypeMAsset → v.MAsset = [] → v.String = .ok "") ∧
    (v.Type_ = KeyTypeTemplate → v.Template = none → v.String = .ok "") ∧
    (v.Type_ = KeyTypeCreated → v.Created = none → v.String = .ok "") ∧
    (v.Type_ = KeyTypeUpdated → v.Updated = none → v.String = .ok "") ∧
    (v.Type_ = KeyTypeCheckbox → v.Checkbox = none → v.String = .ok "") ∧
    (v.Type_ = KeyTypeRollup → v.Rollup = none → v.String = .ok "") ∧
    (v.Type_ = unrecognised → v.String = .ok "") := by
  refine ⟨?_, ?_, ?_, ?_, ?_, ?_, ?_, ?_, ?_, ?_, ?_, ?_, ?_, ?_, ?_, ?_⟩ <;>
    first
    | (intro h1 h2; simp [Value.String, h1, h2])
    | (intro h1; simp [Value.String, h1])

open KeyType in
/-- String returns a string on every Value whose list payloads hold no nil element, unless the
kind is Relation and the Relation payload is absent. -/
theorem String_ok_of (v : Value) (hsel : ∀ x ∈ v.MSelect, x ≠ none)
    (hasset : ∀ x ∈ v.MAsset, x ≠ none)
    (h : ¬ (v.Type_ = KeyTypeRelation ∧ v.Relation = none)) : ∃ s, v.String = .ok s := by
  cases hT : v.Type_ with
  | KeyTypeBlock => simp only [Value.String, hT]; split <;> exact ⟨_, rfl⟩
  | KeyTypeText => simp only [Value.String, hT]; split <;> exact ⟨_, rfl⟩
  | KeyTypeNumber => simp only [Value.String, hT]; split <;> exact ⟨_, rfl⟩
  | KeyTypeDate => simp only [Value.String, hT]; split <;> exact ⟨_, rfl⟩
  | KeyTypeSelect =>
    simp only [Value.String, hT]
    split
    · exact ⟨_, rfl⟩
    · rename_i hm
      exact absurd rfl (hsel none (by rw [hm]; exact List.mem_cons_self _ _))
    · exact ⟨_, rfl⟩
  | KeyTypeMSelect =>
    simp only [Value.String, hT]
    obtain ⟨ret, hret⟩ := collectContents_of_no_nil ValueSelect.Content v.MSelect hsel
    rw [hret]
    split <;> exact ⟨_, rfl⟩
  | KeyTypeURL => simp only [Value.String, hT]; split <;> exact ⟨_, rfl⟩
  | KeyTypeEmail => simp only [Value.String, hT]; split <;> exact ⟨_, rfl⟩
  | KeyTypePhone => simp only [Value.String, hT]; split <;> exact ⟨_, rfl⟩
  | KeyTypeMAsset =>
    simp only [Value.String, hT]
    obtain ⟨ret, hret⟩ := collectContents_of_no_nil ValueAsset.Content v.MAsset hasset
    rw [hret]
    split <;> exact ⟨_, rfl⟩
  | KeyTypeTemplate => simp only [Value.String, hT]; split <;> exact ⟨_, rfl⟩
  | KeyTypeCreated => simp only [Value.String, hT]; split <;> exact ⟨_, rfl⟩
  | KeyTypeUpdated => simp only [Value.String, hT]; split <;> exact ⟨_, rfl⟩
  | KeyTypeCheckbox =>
    simp only [Value.String, hT]
    split
    · exact ⟨_, rfl⟩
    · split <;> exact ⟨_, rfl⟩
  | KeyTypeRelation =>
    simp only [Value.String, hT]
    split
    · rename_i hr
      exact absurd ⟨hT, hr⟩ h
    · split <;> exact ⟨_, rfl⟩
  | KeyTypeRollup => simp only [Value.String, hT]; split <;> exact ⟨_, rfl⟩
  | unrecognised => simp only [Value.String, hT]; exact ⟨_, rfl⟩

open KeyType in
/-- C13: on a Value whose list payloads hold no nil element, String panics if and only if the
kind is Relation and the Relation payload is absent; on a Relation value with a payload it
returns the Contents joined by single spaces, which is the empty string when Contents is
empty. -/
theorem C13_string_panics_iff (v : Value) (hsel : ∀ x ∈ v.MSelect, x ≠ none)
    (hasset : ∀ x ∈ v.MAsset, x ≠ none) :
    ((∃ p, v.String = .error p) ↔ (v.Type_ = KeyTypeRelation ∧ v.Relation = none)) ∧
    (∀ rel, v.Type_ = KeyTypeRelation → v.Relation = some rel →
      v.String = .ok (" ".intercalate rel.Contents)) ∧
    (∀ rel, v.Type_ = KeyTypeRelation → v.Relation = some rel → rel.Contents = [] →
      v.String = .ok "") := by
  have hrel : ∀ rel, v.Type_ = KeyTypeRelation → v.Relation = some rel →
      v.String = .ok (" ".intercalate rel.Contents) := by
    intro rel h1 h2
    simp only [Value.String, h1, h2, foldl_append_singleton, List.nil_append, strings.Join]
    split
    · rename_i hlen
      have : rel.Contents = [] := List.length_eq_zero.mp (by omega)
      rw [this]
      rfl
    · rfl
  refine ⟨?_, hrel, ?_⟩
  · constructor
    · rintro ⟨p, hp⟩
      by_contra hcon
      obtain ⟨s, hs⟩ := String_ok_of v hsel hasset hcon
      rw [hs] at hp
      cases hp
    · rintro ⟨h1, h2⟩
      exact ⟨.nilPointerDereference, by simp [Value.String, h1, h2]⟩
  · intro rel h1 h2 h3
    rw [hrel rel h1 h2, h3]
    rfl

/-- C13 at a Relation value whose payload holds the contents a and b. -/
theorem C13_string_panics_iff_witness :
    ((∀ x ∈ ([] : List (Option ValueSelect)), x ≠ none) ∧
      (∀ x ∈ ([] : List (Option ValueAsset)), x ≠ none)) ∧
    (((∃ p, (Value.mk "" "" "" KeyType.KeyTypeRelation false none none none none [] none none
          none [] none none none none (some ⟨["a", "b"], []⟩) none).String = .error p) ↔
        (KeyType.KeyTypeRelation = KeyType.KeyTypeRelation ∧
          some (ValueRelation.mk ["a", "b"] []) = none)) ∧
    (∀ rel, KeyType.KeyTypeRelation = KeyType.KeyTypeRelation →
      some (ValueRelation.mk ["a", "b"] []) = some rel →
      (Value.mk "" "" "" KeyType.KeyTypeRelation false none none none none [] none none
          none [] none none none none (some ⟨["a", "b"], []⟩) none).String
        = .ok (" ".intercalate rel.Contents)) ∧
    (∀ rel, KeyType.KeyTypeRelation = KeyType.KeyTypeRelation →
      some (ValueRelation.mk ["a", "b"] []) = some rel → rel.Contents = [] →
      (Value.mk "" "" "" KeyType.KeyTypeRelation false none none none none [] none none
          none [] none none none none (some ⟨["a", "b"], []⟩) none).String = .ok "")) :=
  ⟨⟨by simp, by simp⟩,
    C13_string_panics_iff
      (Value.mk "" "" "" KeyType.KeyTypeRelation false none none none none [] none none
          none [] none none none none (some ⟨["a", "b"], []⟩) none)
      (by simp) (by simp)⟩

/-! ### Dates -/

/-- With format None and a date-only rendering, the constructor's text is the date of the first
instant, followed by the arrow and the date of the second instant exactly when the second instant
is positive. -/
theorem date_formatted_eq (Local : time.Location) (H : time.Time → time.Time → String)
    (content content2 : Int) :
    (NewFormattedValueDate Local H content content2 DateFormatNone true).FormattedContent =
      if 0 < content2 then
        (time.UnixMilli content).Format Local .date ++
          (" → " ++ (time.UnixMilli content2).Format Local .date)
      else (time.UnixMilli content).Format Local .date := by
  simp [NewFormattedValueDate, DateFormatNone]

theorem append_arrow_ne (s t : String) : s ≠ s ++ (" → " ++ t) := by
  intro h
  have hlen := congrArg String.length h
  rw [String.length_append, String.length_append] at hlen
  have h3 : (" → " : String).length = 3 := by decide
  omega

/-- C14, as stated, fails for a range that ends before 1970: the instants of 1960-01-01 and
1965-01-01 (UTC) are in increasing order, yet the text is the date of the first alone, in every
time zone. -/
theorem C14_end_before_epoch_is_dropped :
    (-315619200000 : Int) < -157766400000 ∧
    (NewFormattedValueDate (fun _ => 0) (fun _ _ => "") (-315619200000) (-157766400000)
        DateFormatNone true).FormattedContent = "1960-01-01" ∧
    ((time.UnixMilli (-157766400000)).Format (fun _ => 0) .date = "1965-01-01") ∧
    (¬ ∃ (Local : time.Location) (H : time.Time → time.Time → String),
      (NewFormattedValueDate Local H (-315619200000) (-157766400000)
          DateFormatNone true).FormattedContent =
        (time.UnixMilli (-315619200000)).Format Local .date ++
          (" → " ++ (time.UnixMilli (-157766400000)).Format Local .date)) := by
  refine ⟨by decide, by decide, by decide, ?_⟩
  rintro ⟨Local, H, h⟩
  rw [date_formatted_eq, if_neg (by decide)] at h
  exact append_arrow_ne _ _ h

/-- C14, amended: for every first instant T1 and every second instant T2 greater than 0, whether
or not it is after T1, with format None and a date-only rendering the text is the YYYY-MM-DD
date of T1, the arrow between two spaces, and the YYYY-MM-DD date of T2, all in the zone of the
process. -/
theorem C14_date_range (Local : time.Location) (H : time.Time → time.Time → String)
    (T1 T2 : Int) (h2 : 0 < T2) :
    (NewFormattedValueDate Local H T1 T2 DateFormatNone true).FormattedContent =
      (time.UnixMilli T1).Format Local .date ++
        (" → " ++ (time.UnixMilli T2).Format Local .date) := by
  rw [date_formatted_eq, if_pos h2]

/-- C14 at midnight UTC of 2000-02-29 and of 2023-11-15, in the zone UTC. -/
theorem C14_date_range_witness :
    (0 : Int) < 1700006400000 ∧
    (NewFormattedValueDate (fun _ => 0) (fun _ _ => "") 951782400000 1700006400000
        DateFormatNone true).FormattedContent =
      (time.UnixMilli 951782400000).Format (fun _ => 0) .date ++
        (" → " ++ (time.UnixMilli 1700006400000).Format (fun _ => 0) .date) ∧
    (time.UnixMilli 951782400000).Format (fun _ => 0) .date = "2000-02-29" ∧
    (time.UnixMilli 1700006400000).Format (fun _ => 0) .date = "2023-11-15" :=
  ⟨by decide,
    C14_date_range (fun _ => 0) (fun _ _ => "") 951782400000 1700006400000 (by decide),
    by decide, by decide⟩

/-- C15: whatever the instants, the format and the isNotTime argument, the ValueDate returned by
NewFormattedValueDate has HasEndDate false and IsNotTime true, and holds the two instants in
Content and Content2. -/
theorem C15_date_flags (Local : time.Location) (H : time.Time → time.Time → String)
    (content content2 : Int) (format : DateFormat) (isNotTime : Bool) :
    (NewFormattedValueDate Local H content content2 format isNotTime).HasEndDate = false ∧
    (NewFormattedValueDate Local H content content2 format isNotTime).IsNotTime = true ∧
    (NewFormattedValueDate Local H content content2 format isNotTime).Content = content ∧
    (NewFormattedValueDate Local H content content2 format isNotTime).Content2 = content2 :=
  ⟨rfl, rfl, rfl, rfl⟩

/-! ### Number formats -/

theorem english_prefix (pfx : String) (prec : Nat) (x : Float64) :
    message.english pfx prec x = pfx ++ message.english "" prec x := by
  cases x <;> simp [message.english]

theorem formatted_commas (lf : LocaleFormatter) (content : Float64) :
    (NewFormattedValueNumber lf content NumberFormatCommas).FormattedContent =
      strings.TrimRight (strings.TrimRight (message.english "" 6 content) "0") "." := by
  have h1 : NumberFormatCommas ≠ NumberFormatNone := by decide
  simp only [NewFormattedValueNumber, formatNumber, if_neg h1, if_true, message.Sprintf]

theorem formatted_percent (lf : LocaleFormatter) (content : Float64) :
    (NewFormattedValueNumber lf content NumberFormatPercent).FormattedContent =
      strings.TrimRight (strings.TrimRight
        (strconv.FormatFloatFixed (content.mul (Float64.ofInt 100)) 2) "0") "." ++ "%" := by
  have h1 : NumberFormatPercent ≠ NumberFormatNone := by decide
  have h2 : NumberFormatPercent ≠ NumberFormatCommas := by decide
  simp only [NewFormattedValueNumber, formatNumber, if_neg h1, if_neg h2, if_true, fmt.Sprintf,
    String.empty_append]

theorem formatted_usDollar (lf : LocaleFormatter) (content : Float64) :
    (NewFormattedValueNumber lf content NumberFormatUSDollar).FormattedContent =
      "$" ++ message.english "" 2 content := by
  have h1 : NumberFormatUSDollar ≠ NumberFormatNone := by decide
  have h2 : NumberFormatUSDollar ≠ NumberFormatCommas := by decide
  have h3 : NumberFormatUSDollar ≠ NumberFormatPercent := by decide
  simp only [NewFormattedValueNumber, formatNumber, if_neg h1, if_neg h2, if_neg h3, if_true,
    message.Sprintf]
  exact english_prefix _ _ _

theorem formatted_none (lf : LocaleFormatter) (content : Float64) :
    (NewFormattedValueNumber lf content NumberFormatNone).FormattedContent =
      strings.TrimRight (strings.TrimRight (strconv.FormatFloatFixed content 5) "0") "." := by
  simp only [NewFormattedValueNumber, if_true, fmt.Sprintf, String.empty_append]

theorem reformatted_none (lf : LocaleFormatter) (content : Float64) :
    ((NewFormattedValueNumber lf content NumberFormatNone).FormatNumber lf).FormattedContent =
      strconv.FormatFloat content := by
  simp only [ValueNumber.FormatNumber, NewFormattedValueNumber, formatNumber, if_true]

theorem dropWhile_append_cons_of_neg {α : Type} (p : α → Bool) (l : List α) (x : α) (r : List α)
    (hx : p x = false) : (l ++ x :: r).dropWhile p = l.dropWhile p ++ x :: r := by
  induction l with
  | nil => simp [List.dropWhile, hx]
  | cons a l ih =>
    by_cases ha : p a = true
    · simp [List.dropWhile, ha, ih]
    · simp [List.dropWhile, ha]

theorem dropWhile_of_all_neg {α : Type} (p : α → Bool) (l : List α)
    (h : ∀ c ∈ l, p c = false) : l.dropWhile p = l := by
  cases l with
  | nil => rfl
  | cons a l => simp [List.dropWhile, h a (List.mem_cons_self _ _)]

theorem TrimRight_mk (l : List Char) (cutset : String) :
    strings.TrimRight (String.mk l) cutset =
      String.mk (l.reverse.dropWhile (fun c => decide (c ∈ cutset.toList))).reverse := rfl

theorem trim_decimal (pre F : List Char) (hpre : ∀ c ∈ pre, c ≠ '.') (hF : ∀ c ∈ F, c ≠ '.') :
    strings.TrimRight (strings.TrimRight (String.mk (pre ++ '.' :: F)) "0") "." =
      String.mk (pre ++ (if F.rdropWhile (fun c => c == '0') = [] then []
        else '.' :: F.rdropWhile (fun c => c == '0'))) := by
  have hp0 : (fun c : Char => decide (c ∈ "0".toList)) = (fun c => c == '0') := by
    funext c
    by_cases h : c = '0' <;> simp [h]
  have hpd : ∀ c : Char, decide (c ∈ ".".toList) = false ↔ c ≠ '.' := by
    intro c
    simp
  have hrev : (pre ++ '.' :: F).reverse = F.reverse ++ '.' :: pre.reverse := by simp
  rw [TrimRight_mk, TrimRight_mk, hp0, hrev, dropWhile_append_cons_of_neg _ _ _ _ (by decide),
    List.reverse_reverse]
  unfold List.rdropWhile
  cases hD : F.reverse.dropWhile (fun c => c == '0') with
  | nil =>
    have h1 : ('.' :: pre.reverse).dropWhile (fun c => decide (c ∈ ".".toList)) = pre.reverse := by
      rw [List.dropWhile_cons_of_pos (by decide)]
      exact dropWhile_of_all_neg _ _
        (fun c hc => (hpd c).mpr (hpre c (List.mem_reverse.mp hc)))
    rw [List.nil_append, h1]
    simp
  | cons d D =>
    have hd : d ∈ F := by
      have : d ∈ F.reverse.dropWhile (fun c => c == '0') := by
        rw [hD]; exact List.mem_cons_self _ _
      exact List.mem_reverse.mp ((List.dropWhile_sublist _).subset this)
    have h1 : (d :: D ++ '.' :: pre.reverse).dropWhile (fun c => decide (c ∈ ".".toList))
        = d :: D ++ '.' :: pre.reverse := by
      rw [List.cons_append, List.dropWhile_cons_of_neg]
      simpa using hF d hd
    rw [h1]
    simp

theorem digitChar_ne_dot (d : Nat) : Nat.digitChar d ≠ '.' := by
  by_cases h : d < 16
  · interval_cases d <;> decide
  · have hstar : Nat.digitChar d = '*' := by
      unfold Nat.digitChar
      repeat rw [if_neg (by omega)]
    rw [hstar]
    decide

theorem toDigitsCore_ne_dot (b fuel n : Nat) (ds : List Char) (h : ∀ c ∈ ds, c ≠ '.') :
    ∀ c ∈ Nat.toDigitsCore b fuel n ds, c ≠ '.' := by
  induction fuel generalizing n ds with
  | zero => simpa [Nat.toDigitsCore] using h
  | succ f ih =>
    have hcons : ∀ c ∈ Nat.digitChar (n % b) :: ds, c ≠ '.' := by
      intro c hc
      rcases List.mem_cons.mp hc with rfl | hc
      · exact digitChar_ne_dot _
      · exact h c hc
    simp only [Nat.toDigitsCore]
    split_ifs
    · exact hcons
    · exact ih _ _ hcons

theorem fixedInt_ne_dot (k prec : Nat) : ∀ c ∈ strconv.fixedInt k prec, c ≠ '.' :=
  toDigitsCore_ne_dot 10 _ _ [] (by simp)

theorem fixedFrac_ne_dot (k prec : Nat) : ∀ c ∈ strconv.fixedFrac k prec, c ≠ '.' := by
  intro c hc
  simp only [strconv.fixedFrac, List.mem_append] at hc
  rcases hc with hc | hc
  · rw [(List.mem_replicate.mp hc).2]
    decide
  · exact toDigitsCore_ne_dot 10 _ _ [] (by simp) c hc

theorem mem_groupReversed (c : Char) :
    ∀ l : List Char, c ∈ message.groupReversed l → c ∈ l ∨ c = ','
  | [], h => Or.inl h
  | [_], h => Or.inl h
  | [_, _], h => Or.inl h
  | x :: y :: z :: rest, h => by
    unfold message.groupReversed at h
    split_ifs at h with hr
    · subst hr
      exact Or.inl h
    · simp only [List.mem_cons] at h
      rcases h with h | h | h | h | h
      · exact Or.inl (by simp [h])
      · exact Or.inl (by simp [h])
      · exact Or.inl (by simp [h])
      · exact Or.inr h
      · rcases mem_groupReversed c rest h with h | h
        · exact Or.inl (by simp [h])
        · exact Or.inr h

theorem grouped_ne_dot (k prec : Nat) :
    ∀ c ∈ (message.groupReversed (strconv.fixedInt k prec).reverse).reverse, c ≠ '.' := by
  intro c hc
  rcases mem_groupReversed c _ (List.mem_reverse.mp hc) with h | h
  · exact fixedInt_ne_dot k prec c (List.mem_reverse.mp h)
  · rw [h]
    decide

/-- Commas on a finite amount: the minus sign of an amount below zero, the integer digits in groups
of three, and the six decimals without their trailing zeros, the point left out when no decimal
remains. -/
theorem formatted_commas_fin (lf : LocaleFormatter) (s : Bool) (k : Nat) :
    (NewFormattedValueNumber lf (.fin s k) NumberFormatCommas).FormattedContent =
      String.mk ((if (Float64.fin s k).lt Float64.zero then ['-'] else []) ++
        (message.groupReversed (strconv.fixedInt k 6).reverse).reverse ++
        (if (strconv.fixedFrac k 6).rdropWhile (fun c => c == '0') = [] then []
          else '.' :: (strconv.fixedFrac k 6).rdropWhile (fun c => c == '0'))) := by
  rw [formatted_commas]
  have h : message.english "" 6 (.fin s k) =
      String.mk (((if (Float64.fin s k).lt Float64.zero then ['-'] else []) ++
        (message.groupReversed (strconv.fixedInt k 6).reverse).reverse) ++
        '.' :: strconv.fixedFrac k 6) := by
    simp [message.english]
  rw [h, trim_decimal _ _ ?_ (fixedFrac_ne_dot k 6), List.append_assoc]
  intro c hc
  rcases List.mem_append.mp hc with hc | hc
  · split_ifs at hc
    · rw [List.mem_singleton.mp hc]
      decide
    · simp at hc
  · exact grouped_ne_dot k 6 c hc

/-- USDollar on a finite amount: the dollar sign, the minus sign of an amount below zero, the
integer digits in groups of three, the point and two decimals. -/
theorem formatted_usDollar_fin (lf : LocaleFormatter) (s : Bool) (k : Nat) :
    (NewFormattedValueNumber lf (.fin s k) NumberFormatUSDollar).FormattedContent =
      String.mk ('$' :: (if (Float64.fin s k).lt Float64.zero then ['-'] else []) ++
        (message.groupReversed (strconv.fixedInt k 2).reverse).reverse ++
        '.' :: strconv.fixedFrac k 2) := by
  rw [formatted_usDollar]
  simp [message.english]
  rfl

/-- Percent when the product is finite: the minus sign of a product with the sign bit set, the
integer digits, the two decimals without their trailing zeros, the point left out when no decimal
remains, and the percent sign. -/
theorem formatted_percent_fin (lf : LocaleFormatter) (content : Float64) (s : Bool) (k : Nat)
    (h : content.mul (Float64.ofInt 100) = .fin s k) :
    (NewFormattedValueNumber lf content NumberFormatPercent).FormattedContent =
      String.mk ((if s then ['-'] else []) ++ strconv.fixedInt k 2 ++
        (if (strconv.fixedFrac k 2).rdropWhile (fun c => c == '0') = [] then []
          else '.' :: (strconv.fixedFrac k 2).rdropWhile (fun c => c == '0'))) ++ "%" := by
  rw [formatted_percent, h]
  have h2 : strconv.FormatFloatFixed (.fin s k) 2 =
      String.mk (((if s then ['-'] else []) ++ strconv.fixedInt k 2) ++
        '.' :: strconv.fixedFrac k 2) := by
    simp [strconv.FormatFloatFixed]
  rw [h2, trim_decimal _ _ ?_ (fixedFrac_ne_dot k 2), List.append_assoc]
  intro c hc
  rcases List.mem_append.mp hc with hc | hc
  · split_ifs at hc
    · rw [List.mem_singleton.mp hc]
      decide
    · simp at hc
  · exact fixedInt_ne_dot k 2 c hc

set_option maxRecDepth 100000 in
/-- C16: with format Commas the text is the English rendering of the amount with six decimals,
thousands grouped, its trailing zeros and then a trailing decimal point trimmed; with Percent
it is the amount times 100 with two decimals, trimmed the same way, followed by the percent sign;
with USDollar it is the dollar sign followed by the English rendering with two decimals. Digit by
digit, for a finite amount: Commas gives the minus sign when the amount is below zero, the integer
digits in groups of three and the six decimals without their trailing zeros, the point left out
when none remains (the trimming never reaches the integer digits); USDollar gives the dollar sign,
that minus sign, the grouped integer digits, the point and two decimals; Percent gives the digits
of the product the same way, ungrouped, then the percent sign. So 1234.5 with Commas gives
1,234.5, 0.4567 with Percent gives 45.67 percent and 9.996 with USDollar gives 10.00 dollars;
negative zero gives 0 with Commas and 0.00 dollars with USDollar, the English printer showing no
sign for it, and -0 percent with Percent; 1000000 with Commas gives 1,000,000 and -1234567.891
gives -1,234,567.891. -/
theorem C16_number_formats (lf : LocaleFormatter) (content : Float64) :
    (NewFormattedValueNumber lf content NumberFormatCommas).FormattedContent =
      strings.TrimRight (strings.TrimRight (message.english "" 6 content) "0") "." ∧
    (NewFormattedValueNumber lf content NumberFormatPercent).FormattedContent =
      strings.TrimRight (strings.TrimRight
        (strconv.FormatFloatFixed (content.mul (Float64.ofInt 100)) 2) "0") "." ++ "%" ∧
    (NewFormattedValueNumber lf content NumberFormatUSDollar).FormattedContent =
      "$" ++ message.english "" 2 content ∧
    (∀ (s : Bool) (k : Nat),
      (NewFormattedValueNumber lf (.fin s k) NumberFormatCommas).FormattedContent =
        String.mk ((if (Float64.fin s k).lt Float64.zero then ['-'] else []) ++
          (message.groupReversed (strconv.fixedInt k 6).reverse).reverse ++
          (if (strconv.fixedFrac k 6).rdropWhile (fun c => c == '0') = [] then []
            else '.' :: (strconv.fixedFrac k 6).rdropWhile (fun c => c == '0'))) ∧
      (NewFormattedValueNumber lf (.fin s k) NumberFormatUSDollar).FormattedContent =
        String.mk ('$' :: (if (Float64.fin s k).lt Float64.zero then ['-'] else []) ++
          (message.groupReversed (strconv.fixedInt k 2).reverse).reverse ++
          '.' :: strconv.fixedFrac k 2)) ∧
    (∀ (s : Bool) (k : Nat), content.mul (Float64.ofInt 100) = .fin s k →
      (NewFormattedValueNumber lf content NumberFormatPercent).FormattedContent =
        String.mk ((if s then ['-'] else []) ++ strconv.fixedInt k 2 ++
          (if (strconv.fixedFrac k 2).rdropWhile (fun c => c == '0') = [] then []
            else '.' :: (strconv.fixedFrac k 2).rdropWhile (fun c => c == '0'))) ++ "%") ∧
    (NewFormattedValueNumber lf (strconv.ParseFloat "1234.5").1
        NumberFormatCommas).FormattedContent = "1,234.5" ∧
    (NewFormattedValueNumber lf (strconv.ParseFloat "0.4567").1
        NumberFormatPercent).FormattedContent = "45.67%" ∧
    (NewFormattedValueNumber lf (strconv.ParseFloat "9.996").1
        NumberFormatUSDollar).FormattedContent = "$10.00" ∧
    (strconv.ParseFloat "-0").1 = .fin true 0 ∧
    (NewFormattedValueNumber lf (.fin true 0) NumberFormatCommas).FormattedContent = "0" ∧
    (NewFormattedValueNumber lf (.fin true 0) NumberFormatUSDollar).FormattedContent = "$0.00" ∧
    (NewFormattedValueNumber lf (.fin true 0) NumberFormatPercent).FormattedContent = "-0%" ∧
    (NewFormattedValueNumber lf (strconv.ParseFloat "1000000").1
        NumberFormatCommas).FormattedContent = "1,000,000" ∧
    (NewFormattedValueNumber lf (strconv.ParseFloat "-1234567.891").1
        NumberFormatCommas).FormattedContent = "-1,234,567.891" := by
  refine ⟨formatted_commas lf content, formatted_percent lf content,
    formatted_usDollar lf content,
    fun s k => ⟨formatted_commas_fin lf s k, formatted_usDollar_fin lf s k⟩,
    fun s k h => formatted_percent_fin lf content s k h, ?_, ?_, ?_, by decide!, ?_, ?_, ?_, ?_, ?_⟩
  · rw [formatted_commas]; decide!
  · rw [formatted_percent]; decide!
  · rw [formatted_usDollar]; decide!
  · rw [formatted_commas]; decide!
  · rw [formatted_usDollar]; decide!
  · rw [formatted_percent]; decide!
  · rw [formatted_commas]; decide!
  · rw [formatted_commas]; decide!

set_option maxRecDepth 100000 in
/-- C20, as stated, fails for format None: at the amount 0.123456789 the constructor renders five
decimals, 0.12346, while FormatNumber renders the shortest decimal that reads back as the amount,
0.123456789, whatever the locale formatter. -/
theorem C20_none_format_is_not_refreshed :
    (∀ lf : LocaleFormatter,
      (NewFormattedValueNumber lf (strconv.ParseFloat "0.123456789").1
        NumberFormatNone).FormattedContent = "0.12346") ∧
    (∀ lf : LocaleFormatter,
      ((NewFormattedValueNumber lf (strconv.ParseFloat "0.123456789").1
        NumberFormatNone).FormatNumber lf).FormattedContent = "0.123456789") ∧
    (¬ ∃ lf : LocaleFormatter,
      ((NewFormattedValueNumber lf (strconv.ParseFloat "0.123456789").1
        NumberFormatNone).FormatNumber lf).FormattedContent =
      (NewFormattedValueNumber lf (strconv.ParseFloat "0.123456789").1
        NumberFormatNone).FormattedContent) := by
  have h1 : ∀ lf : LocaleFormatter,
      (NewFormattedValueNumber lf (strconv.ParseFloat "0.123456789").1
        NumberFormatNone).FormattedContent = "0.12346" := by
    intro lf
    rw [formatted_none]
    decide!
  have h2 : ∀ lf : LocaleFormatter,
      ((NewFormattedValueNumber lf (strconv.ParseFloat "0.123456789").1
        NumberFormatNone).FormatNumber lf).FormattedContent = "0.123456789" := by
    intro lf
    rw [reformatted_none]
    decide!
  refine ⟨h1, h2, ?_⟩
  rintro ⟨lf, h⟩
  rw [h1, h2] at h
  exact absurd h (by decide)

/-- C20, amended: for every amount and every number format other than None, FormatNumber on the
value returned by NewFormattedValueNumber leaves the value, its FormattedContent included,
unchanged. -/
theorem C20_refresh_agrees (lf : LocaleFormatter) (amount : Float64) (format : NumberFormat)
    (h : format ≠ NumberFormatNone) :
    (NewFormattedValueNumber lf amount format).FormatNumber lf =
      NewFormattedValueNumber lf amount format := by
  simp only [ValueNumber.FormatNumber, NewFormattedValueNumber, if_neg h]

set_option maxRecDepth 100000 in
/-- C20 at the amount 1234.5 with format Commas, the other languages rendered the English way. -/
theorem C20_refresh_agrees_witness :
    NumberFormatCommas ≠ NumberFormatNone ∧
    (NewFormattedValueNumber (fun _ pfx prec x => message.english pfx prec x)
        (strconv.ParseFloat "1234.5").1 NumberFormatCommas).FormatNumber
        (fun _ pfx prec x => message.english pfx prec x) =
      NewFormattedValueNumber (fun _ pfx prec x => message.english pfx prec x)
        (strconv.ParseFloat "1234.5").1 NumberFormatCommas :=
  ⟨by decide,
    C20_refresh_agrees (fun _ pfx prec x => message.english pfx prec x)
      (strconv.ParseFloat "1234.5").1 NumberFormatCommas (by decide)⟩

/-! ### Rounding helpers -/

theorem unit_pos : 0 < 2 ^ 1074 := pow_pos (by decide) 1074

/-- Whole multiples of `U` around `k`: the one not above it and the one not below it. -/
theorem floor_ceil_multiple (k U : Nat) (hU : 0 < U) :
    k / U * U ≤ k ∧ k < k / U * U + U ∧
    k ≤ (k + U - 1) / U * U ∧ (k + U - 1) / U * U < k + U := by
  have h1 := Nat.div_mul_le_self k U
  have h2 := Nat.lt_div_mul_add (a := k) hU
  have h3 := Nat.div_mul_le_self (k + U - 1) U
  have h4 := Nat.lt_div_mul_add (a := k + U - 1) hU
  refine ⟨h1, h2, ?_, ?_⟩ <;> omega

/-- The whole multiple of `U` nearest to `k`, the upper one when two are equally near. -/
theorem round_multiple (k U : Nat) (hU : 0 < U) :
    2 * ((2 * k + U) / (2 * U) * U) ≤ 2 * k + U ∧
    2 * k < 2 * ((2 * k + U) / (2 * U) * U) + U := by
  have h1 := Nat.div_mul_le_self (2 * k + U) (2 * U)
  have h2 := Nat.lt_div_mul_add (a := 2 * k + U) (b := 2 * U) (by omega)
  have h3 : (2 * k + U) / (2 * U) * (2 * U) = 2 * ((2 * k + U) / (2 * U) * U) := by ring
  rw [h3] at h1 h2
  constructor <;> omega

/-- Positions of a finite value and of the whole multiples of `U` units next to it. -/
theorem key_bounds (k U : Nat) (hU : 0 < U) :
    ((Float64.fin false (k / U * U)).key ≤ (Float64.fin false k).key ∧
      (Float64.fin false k).key < (Float64.fin false (k / U * U)).key + (U : Int)) ∧
    ((Float64.fin true ((k + U - 1) / U * U)).key ≤ (Float64.fin true k).key ∧
      (Float64.fin true k).key < (Float64.fin true ((k + U - 1) / U * U)).key + (U : Int)) ∧
    ((Float64.fin false k).key ≤ (Float64.fin false ((k + U - 1) / U * U)).key ∧
      (Float64.fin false ((k + U - 1) / U * U)).key < (Float64.fin false k).key + (U : Int)) ∧
    ((Float64.fin true k).key ≤ (Float64.fin true (k / U * U)).key ∧
      (Float64.fin true (k / U * U)).key < (Float64.fin true k).key + (U : Int)) := by
  obtain ⟨h1, h2, h3, h4⟩ := floor_ceil_multiple k U hU
  simp only [Float64.key, if_true, Bool.false_eq_true, if_false]
  generalize k / U * U = a at h1 h2 ⊢
  generalize (k + U - 1) / U * U = b at h3 h4 ⊢
  omega

/-- The model of `math.Floor` on a finite value: a whole number, not above the value and less
than 1 below it (positions in units of 2^-1074). -/
theorem Floor_spec (s : Bool) (k : Nat) :
    ∃ j, math.Floor (.fin s k) = .fin s j ∧ 2 ^ 1074 ∣ j ∧
      (Float64.fin s j).key ≤ (Float64.fin s k).key ∧
      (Float64.fin s k).key < (Float64.fin s j).key + ((2 ^ 1074 : Nat) : Int) := by
  obtain ⟨h1, h2, _, _⟩ := key_bounds k (2 ^ 1074) unit_pos
  cases s with
  | false => exact ⟨_, rfl, Nat.dvd_mul_left _ _, h1.1, h1.2⟩
  | true => exact ⟨_, rfl, Nat.dvd_mul_left _ _, h2.1, h2.2⟩

/-- The model of `math.Ceil` on a finite value: a whole number, not below the value and less
than 1 above it. -/
theorem Ceil_spec (s : Bool) (k : Nat) :
    ∃ j, math.Ceil (.fin s k) = .fin s j ∧ 2 ^ 1074 ∣ j ∧
      (Float64.fin s k).key ≤ (Float64.fin s j).key ∧
      (Float64.fin s j).key < (Float64.fin s k).key + ((2 ^ 1074 : Nat) : Int) := by
  obtain ⟨_, _, h3, h4⟩ := key_bounds k (2 ^ 1074) unit_pos
  cases s with
  | false => exact ⟨_, rfl, Nat.dvd_mul_left _ _, h3.1, h3.2⟩
  | true => exact ⟨_, rfl, Nat.dvd_mul_left _ _, h4.1, h4.2⟩

/-- The model of `math.Round` on a finite value: a whole number at most one half away from the
value, the one of greater magnitude when two are equally near (magnitudes in units of
2^-1074). -/
theorem Round_spec (s : Bool) (k : Nat) :
    ∃ j, math.Round (.fin s k) = .fin s j ∧ 2 ^ 1074 ∣ j ∧
      2 * j ≤ 2 * k + 2 ^ 1074 ∧ 2 * k < 2 * j + 2 ^ 1074 := by
  obtain ⟨h1, h2⟩ := round_multiple k (2 ^ 1074) unit_pos
  exact ⟨_, rfl, Nat.dvd_mul_left _ _, h1, h2⟩

set_option maxRecDepth 100000 in
/-- C17: RoundUp, RoundDown and Round are the float64 quotient by 10^p of the ceiling, the floor
and the nearest whole number of the float64 product of the value and 10^p, for every value
and digit count p, ceiling, floor and nearest whole number being those of the product exactly;
RoundUp of 12.3416 to 2 digits is 12.35, RoundDown of 12.3496 is 12.34 and Round of 12.3456
is 12.35. -/
theorem C17_rounding (val : Float64) (precision : Int) :
    RoundUp val precision
      = (math.Ceil (val.mul (math.Pow10 precision))).div (math.Pow10 precision) ∧
    RoundDown val precision
      = (math.Floor (val.mul (math.Pow10 precision))).div (math.Pow10 precision) ∧
    Round val precision
      = (math.Round (val.mul (math.Pow10 precision))).div (math.Pow10 precision) ∧
    (∀ s k, ∃ j, math.Ceil (.fin s k) = .fin s j ∧ 2 ^ 1074 ∣ j ∧
      (Float64.fin s k).key ≤ (Float64.fin s j).key ∧
      (Float64.fin s j).key < (Float64.fin s k).key + ((2 ^ 1074 : Nat) : Int)) ∧
    (∀ s k, ∃ j, math.Floor (.fin s k) = .fin s j ∧ 2 ^ 1074 ∣ j ∧
      (Float64.fin s j).key ≤ (Float64.fin s k).key ∧
      (Float64.fin s k).key < (Float64.fin s j).key + ((2 ^ 1074 : Nat) : Int)) ∧
    (∀ s k, ∃ j, math.Round (.fin s k) = .fin s j ∧ 2 ^ 1074 ∣ j ∧
      2 * j ≤ 2 * k + 2 ^ 1074 ∧ 2 * k < 2 * j + 2 ^ 1074) ∧
    (∀ n : Fin 23, math.Pow10 n.val = .fin false (10 ^ n.val * 2 ^ 1074)) ∧
    RoundUp (strconv.ParseFloat "12.3416").1 2 = (strconv.ParseFloat "12.35").1 ∧
    RoundDown (strconv.ParseFloat "12.3496").1 2 = (strconv.ParseFloat "12.34").1 ∧
    Round (strconv.ParseFloat "12.3456").1 2 = (strconv.ParseFloat "12.35").1 := by
  refine ⟨rfl, rfl, rfl, Ceil_spec, Floor_spec, Round_spec, by decide!, by decide!, by decide!,
    by decide!⟩

end av
